import Mathlib

/-!
Verification of qiaohao9/grpc-go against its natural-language specification.

Part 1 embeds `internal/transport/http_util.go` (grpc-message percent
encoding/decoding and `decodeTimeout`).  Go strings are modelled as lists of
bytes (`List Nat`, each element < 256); `time.Duration` (an int64 count of
nanoseconds) is modelled as `Int` with explicit two's-complement wrapping
where Go arithmetic can overflow.

Part 2 models the grpclb balancer policy.  Its production sources are not in
the repository slice (only `balancer/grpclb/grpclb_test.go` is), so the
policy is modelled from the specification, as noted on each definition.
-/

namespace Transport

/-- Byte constant `spaceByte` from http_util.go. -/
def spaceByte : Nat := 0x20

/-- Byte constant `tildeByte` from http_util.go. -/
def tildeByte : Nat := 0x7E

/-- Byte constant `percentByte` from http_util.go. -/
def percentByte : Nat := 0x25

/-- Go `utf8.RuneError` (the Unicode replacement character U+FFFD). -/
def runeError : Nat := 0xFFFD

/-- Lower bound of the accepted range for the first continuation byte,
from the `acceptRanges` table of Go package unicode/utf8 (selected by the
leading byte: 0xE0 and 0xF0 restrict the low end, all others allow 0x80). -/
def acceptLo (b0 : Nat) : Nat :=
  if b0 = 0xE0 then 0xA0 else if b0 = 0xF0 then 0x90 else 0x80

/-- Upper bound of the accepted range for the first continuation byte,
from the `acceptRanges` table of Go package unicode/utf8 (0xED and 0xF4
restrict the high end, all others allow 0xBF). -/
def acceptHi (b0 : Nat) : Nat :=
  if b0 = 0xED then 0x9F else if b0 = 0xF4 then 0x8F else 0xBF

/-- Go `utf8.DecodeRuneInString` on a byte list: returns (rune, size).
Bit masks of the Go code (`b & 0x1F` and so on) are written as mod by the
corresponding power of two; invalid, truncated, overlong and surrogate
encodings yield `(runeError, 1)` exactly as in Go, and the empty string
yields `(runeError, 0)`. -/
def decodeRuneInString : List Nat → Nat × Nat
  | [] => (runeError, 0)
  | b0 :: rest =>
    if b0 < 0x80 then (b0, 1)
    else if b0 < 0xC2 ∨ 0xF4 < b0 then (runeError, 1)
    else if b0 ≤ 0xDF then
      match rest with
      | b1 :: _ =>
        if acceptLo b0 ≤ b1 ∧ b1 ≤ acceptHi b0 then
          ((b0 % 0x20) * 0x40 + b1 % 0x40, 2)
        else (runeError, 1)
      | [] => (runeError, 1)
    else if b0 ≤ 0xEF then
      match rest with
      | b1 :: b2 :: _ =>
        if (acceptLo b0 ≤ b1 ∧ b1 ≤ acceptHi b0) ∧ (0x80 ≤ b2 ∧ b2 ≤ 0xBF) then
          ((b0 % 0x10) * 0x1000 + (b1 % 0x40) * 0x40 + b2 % 0x40, 3)
        else (runeError, 1)
      | _ => (runeError, 1)
    else
      match rest with
      | b1 :: b2 :: b3 :: _ =>
        if (acceptLo b0 ≤ b1 ∧ b1 ≤ acceptHi b0) ∧
            (0x80 ≤ b2 ∧ b2 ≤ 0xBF) ∧ (0x80 ≤ b3 ∧ b3 ≤ 0xBF) then
          ((b0 % 0x8) * 0x40000 + (b1 % 0x40) * 0x1000 + (b2 % 0x40) * 0x40 + b3 % 0x40, 4)
        else (runeError, 1)
      | _ => (runeError, 1)

/-- Byte sequence of Go `string(r)` for a rune value `r` (unicode/utf8
`EncodeRune`); surrogates and values above U+10FFFF are replaced by the
encoding of `RuneError`, which is `EF BF BD`. -/
def utf8EncodeRune (r : Nat) : List Nat :=
  if r < 0x80 then [r]
  else if r < 0x800 then [0xC0 + r / 0x40, 0x80 + r % 0x40]
  else if (0xD800 ≤ r ∧ r < 0xE000) ∨ 0x10FFFF < r then [0xEF, 0xBF, 0xBD]
  else if r < 0x10000 then
    [0xE0 + r / 0x1000, 0x80 + r / 0x40 % 0x40, 0x80 + r % 0x40]
  else
    [0xF0 + r / 0x40000, 0x80 + r / 0x1000 % 0x40, 0x80 + r / 0x40 % 0x40, 0x80 + r % 0x40]

/-- Go `utf8.ValidString`, phrased through the decoder exactly as Go documents
it: a string is valid UTF-8 when repeatedly decoding runes never produces
`RuneError` with size 1.  The fuel argument only drives termination; each
step consumes at least one byte, so `fuel = msg.length` always suffices. -/
def utf8ValidFuel : Nat → List Nat → Bool
  | _, [] => true
  | 0, _ :: _ => false
  | fuel + 1, msg =>
    let rs := decodeRuneInString msg
    if rs.1 = runeError ∧ rs.2 = 1 then false
    else utf8ValidFuel fuel (msg.drop rs.2)

/-- Validity of a byte string as UTF-8 (Go `utf8.ValidString`). -/
def utf8Valid (msg : List Nat) : Bool := utf8ValidFuel msg.length msg

/-- The per-byte guard of `encodeGrpcMessage`:
`c >= spaceByte && c <= tildeByte && c != percentByte`. -/
def isAllowedByte (c : Nat) : Bool :=
  decide (spaceByte ≤ c) && decide (c ≤ tildeByte) && !(c == percentByte)

/-- Value of an uppercase hexadecimal digit, as produced by Go
`fmt.Sprintf` with the `%02X` verb. -/
def hexUpperDigit (n : Nat) : Nat := if n < 10 then 0x30 + n else 0x37 + n

/-- Percent escape of one byte: a percent sign followed by two uppercase
hexadecimal digits (`fmt.Sprintf` with a doubled percent and `%02X`). -/
def percentEscape (b : Nat) : List Nat :=
  [percentByte, hexUpperDigit (b / 16), hexUpperDigit (b % 16)]

/-- One output chunk of the inner loop of `encodeGrpcMessageUnchecked`: a
byte of a multi-byte rune (`size > 1`) is always percent-escaped; a byte of
a single-byte rune passes through only when it is printable ASCII other
than the percent sign. -/
def encodeByte (size b : Nat) : List Nat :=
  if 1 < size then percentEscape b
  else if isAllowedByte b then [b] else percentEscape b

/-- Loop of `encodeGrpcMessageUnchecked`: decode one rune, re-encode it with
`string(r)` and escape its bytes, then continue past the consumed bytes.
The fuel argument only drives termination; `fuel = msg.length` suffices
because every iteration consumes at least one byte. -/
def encodeGrpcMessageUncheckedFuel : Nat → List Nat → List Nat
  | _, [] => []
  | 0, _ :: _ => []
  | fuel + 1, msg =>
    let rs := decodeRuneInString msg
    (utf8EncodeRune rs.1).flatMap (encodeByte rs.2) ++
      encodeGrpcMessageUncheckedFuel fuel (msg.drop rs.2)

/-- `encodeGrpcMessageUnchecked` from http_util.go. -/
def encodeGrpcMessageUnchecked (msg : List Nat) : List Nat :=
  encodeGrpcMessageUncheckedFuel msg.length msg

/-- `encodeGrpcMessage` from http_util.go: the empty string maps to itself;
a string whose bytes are all printable ASCII other than percent passes
through unchanged; anything else goes through the escaping loop. -/
def encodeGrpcMessage (msg : List Nat) : List Nat :=
  if msg = [] then []
  else if msg.all isAllowedByte then msg else encodeGrpcMessageUnchecked msg

/-- Value of one hexadecimal digit byte as accepted by Go
`strconv.ParseUint(s, 16, 8)` (digits, lowercase and uppercase letters). -/
def hexDigitVal (c : Nat) : Option Nat :=
  if 0x30 ≤ c ∧ c ≤ 0x39 then some (c - 0x30)
  else if 0x61 ≤ c ∧ c ≤ 0x66 then some (c - 0x61 + 10)
  else if 0x41 ≤ c ∧ c ≤ 0x46 then some (c - 0x41 + 10)
  else none

/-- Go `strconv.ParseUint(msg[i+1:i+3], 16, 8)`: both bytes must be hex
digits; two hex digits always fit in 8 bits, so no range error can occur. -/
def parseHexPair (h1 h2 : Nat) : Option Nat :=
  match hexDigitVal h1, hexDigitVal h2 with
  | some a, some b => some (a * 16 + b)
  | _, _ => none

/-- `decodeGrpcMessageUnchecked` from http_util.go: at a percent byte with
at least two following bytes, parse them as hex and emit the decoded byte
(skipping both digits); on a parse failure emit the percent byte itself and
continue with the next byte; all other bytes pass through. -/
def decodeGrpcMessageUnchecked : List Nat → List Nat
  | [] => []
  | [c] => [c]
  | [c, d] => [c, d]
  | c :: h1 :: h2 :: rest =>
    if c = percentByte then
      match parseHexPair h1 h2 with
      | some b => b :: decodeGrpcMessageUnchecked rest
      | none => c :: decodeGrpcMessageUnchecked (h1 :: h2 :: rest)
    else c :: decodeGrpcMessageUnchecked (h1 :: h2 :: rest)

/-- The scan in `decodeGrpcMessage`: true exactly when some byte `msg[i]`
is a percent sign with `i + 2 < len msg`. -/
def hasEscapeCandidate : List Nat → Bool
  | c :: h1 :: h2 :: rest => c == percentByte || hasEscapeCandidate (h1 :: h2 :: rest)
  | _ => false

/-- `decodeGrpcMessage` from http_util.go. -/
def decodeGrpcMessage (msg : List Nat) : List Nat :=
  if msg = [] then []
  else if hasEscapeCandidate msg then decodeGrpcMessageUnchecked msg else msg

/-- Go `time.Nanosecond` in nanoseconds. -/
def timeNanosecond : Int := 1

/-- Go `time.Microsecond` in nanoseconds. -/
def timeMicrosecond : Int := 1000

/-- Go `time.Millisecond` in nanoseconds. -/
def timeMillisecond : Int := 1000000

/-- Go `time.Second` in nanoseconds. -/
def timeSecond : Int := 1000000000

/-- Go `time.Minute` in nanoseconds. -/
def timeMinute : Int := 60000000000

/-- Go `time.Hour` in nanoseconds. -/
def timeHour : Int := 3600000000000

/-- `timeoutUnitToDuration` from http_util.go; the unit bytes are
H, M, S, m, u, n. -/
def timeoutUnitToDuration (u : Nat) : Option Int :=
  if u = 0x48 then some timeHour
  else if u = 0x4D then some timeMinute
  else if u = 0x53 then some timeSecond
  else if u = 0x6D then some timeMillisecond
  else if u = 0x75 then some timeMicrosecond
  else if u = 0x6E then some timeNanosecond
  else none

/-- Value of a decimal digit byte, or none. -/
def decDigitVal (c : Nat) : Option Nat :=
  if 0x30 ≤ c ∧ c ≤ 0x39 then some (c - 0x30) else none

/-- Decimal digit accumulator of Go `strconv.ParseUint` (base 10). -/
def parseDecDigits : List Nat → Nat → Option Nat
  | [], acc => some acc
  | c :: rest, acc =>
    match decDigitVal c with
    | some d => parseDecDigits rest (acc * 10 + d)
    | none => none

/-- Go `strconv.ParseInt(s, 10, 64)`: an optional leading plus or minus
sign followed by at least one decimal digit; errors on an empty string,
a lone sign, any non-digit, or a value outside the signed 64-bit range. -/
def goParseInt64 (s : List Nat) : Option Int :=
  match s with
  | [] => none
  | c :: rest =>
    if c = 0x2B ∨ c = 0x2D then
      match rest with
      | [] => none
      | _ :: _ =>
        match parseDecDigits rest 0 with
        | none => none
        | some n =>
          if c = 0x2D then (if n ≤ 2 ^ 63 then some (-(n : Int)) else none)
          else (if n < 2 ^ 63 then some (n : Int) else none)
    else
      match parseDecDigits s 0 with
      | none => none
      | some n => if n < 2 ^ 63 then some (n : Int) else none

/-- Go `math.MaxInt64`. -/
def maxInt64 : Int := 9223372036854775807

/-- The constant `maxHours = math.MaxInt64 / int64(time.Hour)` from
`decodeTimeout` (both operands positive, so Go and Int division agree). -/
def maxHours : Int := maxInt64 / timeHour

/-- Two's-complement wrap of an integer into the signed 64-bit range,
modelling overflow of the Go int64 multiplication `d * time.Duration(t)`. -/
def wrap64 (x : Int) : Int := (x + 2 ^ 63) % 2 ^ 64 - 2 ^ 63

/-- `decodeTimeout` from http_util.go.  `none` models a non-nil error. -/
def decodeTimeout (s : List Nat) : Option Int :=
  if s.length < 2 then none
  else if 9 < s.length then none
  else
    match timeoutUnitToDuration (s.getD (s.length - 1) 0) with
    | none => none
    | some d =>
      match goParseInt64 (s.take (s.length - 1)) with
      | none => none
      | some t =>
        if d = timeHour ∧ maxHours < t then some maxInt64
        else some (wrap64 (d * t))

/-- Bytewise escaping map: a printable ASCII byte other than percent passes
through, anything else is percent-escaped.  For valid UTF-8 input the
rune-at-a-time loop of `encodeGrpcMessageUnchecked` degenerates to this map
(proved below); it is a proof-side derived form, not a source function. -/
def escapeByte (b : Nat) : List Nat :=
  if isAllowedByte b then [b] else percentEscape b

theorem isAllowedByte_false_of_ge (b : Nat) (h : 0x80 ≤ b) : isAllowedByte b = false := by
  simp only [isAllowedByte, spaceByte, tildeByte, percentByte, Bool.and_eq_false_iff]
  left
  right
  simpa using by omega

theorem allowed_range (b : Nat) (h : isAllowedByte b = true) : 0x20 ≤ b ∧ b ≤ 0x7E := by
  simp only [isAllowedByte, spaceByte, tildeByte, percentByte, Bool.and_eq_true,
    decide_eq_true_eq] at h
  exact ⟨h.1.1, h.1.2⟩

theorem ne_percent_of_allowed (b : Nat) (h : isAllowedByte b = true) : b ≠ percentByte := by
  simp only [isAllowedByte, Bool.and_eq_true, Bool.not_eq_eq_eq_not, Bool.not_true,
    beq_eq_false_iff_ne, ne_eq] at h
  exact h.2

theorem encodeByte_one (b : Nat) : encodeByte 1 b = escapeByte b := by
  simp [encodeByte, escapeByte]

theorem utf8EncodeRune_two (b0 b1 : Nat) (h0 : 0xC2 ≤ b0) (h0' : b0 ≤ 0xDF)
    (h1 : 0x80 ≤ b1) (h1' : b1 ≤ 0xBF) :
    utf8EncodeRune ((b0 % 0x20) * 0x40 + b1 % 0x40) = [b0, b1] := by
  unfold utf8EncodeRune
  rw [if_neg (by omega), if_pos (by omega)]
  simp only [List.cons.injEq, and_true]
  constructor <;> omega

theorem utf8EncodeRune_three (b0 b1 b2 : Nat) (h0 : 0xE0 ≤ b0) (h0' : b0 ≤ 0xEF)
    (h1 : acceptLo b0 ≤ b1) (h1' : b1 ≤ acceptHi b0) (h2 : 0x80 ≤ b2) (h2' : b2 ≤ 0xBF) :
    utf8EncodeRune ((b0 % 0x10) * 0x1000 + (b1 % 0x40) * 0x40 + b2 % 0x40) = [b0, b1, b2] := by
  unfold acceptLo at h1
  unfold acceptHi at h1'
  split_ifs at h1 h1' <;>
    (unfold utf8EncodeRune
     rw [if_neg (by omega), if_neg (by omega), if_neg (by omega), if_pos (by omega)]
     simp only [List.cons.injEq, and_true]
     refine ⟨by omega, by omega, by omega⟩)

theorem utf8EncodeRune_four (b0 b1 b2 b3 : Nat) (h0 : 0xF0 ≤ b0) (h0' : b0 ≤ 0xF4)
    (h1 : acceptLo b0 ≤ b1) (h1' : b1 ≤ acceptHi b0)
    (h2 : 0x80 ≤ b2) (h2' : b2 ≤ 0xBF) (h3 : 0x80 ≤ b3) (h3' : b3 ≤ 0xBF) :
    utf8EncodeRune ((b0 % 0x8) * 0x40000 + (b1 % 0x40) * 0x1000 + (b2 % 0x40) * 0x40 + b3 % 0x40) =
      [b0, b1, b2, b3] := by
  unfold acceptLo at h1
  unfold acceptHi at h1'
  split_ifs at h1 h1' <;>
    (unfold utf8EncodeRune
     rw [if_neg (by omega), if_neg (by omega), if_neg (by omega), if_neg (by omega)]
     simp only [List.cons.injEq, and_true]
     refine ⟨by omega, by omega, by omega, by omega⟩)

theorem decodeRune_spec (msg : List Nat) (hne : msg ≠ []) :
    1 ≤ (decodeRuneInString msg).2 ∧ (decodeRuneInString msg).2 ≤ msg.length ∧
    (((decodeRuneInString msg).1 = runeError ∧ (decodeRuneInString msg).2 = 1) ∨
     (utf8EncodeRune (decodeRuneInString msg).1 = msg.take (decodeRuneInString msg).2 ∧
      (2 ≤ (decodeRuneInString msg).2 →
        ∀ b ∈ msg.take (decodeRuneInString msg).2, 0x80 ≤ b))) := by
  match msg with
  | [] => exact absurd rfl hne
  | b0 :: rest =>
    by_cases ha : b0 < 0x80
    · simp only [decodeRuneInString, if_pos ha]
      refine ⟨by omega, by simp, Or.inr ⟨?_, by omega⟩⟩
      simp [utf8EncodeRune, ha, List.take_succ_cons]
    · by_cases hb : b0 < 0xC2 ∨ 0xF4 < b0
      · simp only [decodeRuneInString, if_neg ha, if_pos hb]
        exact ⟨le_refl 1, by simp, Or.inl (by simp)⟩
      · by_cases hc : b0 ≤ 0xDF
        · -- two-byte branch
          match rest with
          | [] =>
            simp only [decodeRuneInString, if_neg ha, if_neg hb, if_pos hc]
            exact ⟨le_refl 1, by simp, Or.inl (by simp)⟩
          | b1 :: rest1 =>
            by_cases hr : acceptLo b0 ≤ b1 ∧ b1 ≤ acceptHi b0
            · simp only [decodeRuneInString, if_neg ha, if_neg hb, if_pos hc, if_pos hr]
              refine ⟨by omega, by simp, Or.inr ⟨?_, ?_⟩⟩
              · have hlo : acceptLo b0 = 0x80 := by
                  unfold acceptLo
                  rw [if_neg (by omega), if_neg (by omega)]
                have hhi : acceptHi b0 = 0xBF := by
                  unfold acceptHi
                  rw [if_neg (by omega), if_neg (by omega)]
                rw [hlo] at hr
                rw [hhi] at hr
                rw [List.take_succ_cons, List.take_succ_cons, List.take_zero]
                exact utf8EncodeRune_two b0 b1 (by omega) hc hr.1 hr.2
              · intro _ b hbmem
                have hlo : acceptLo b0 = 0x80 := by
                  unfold acceptLo
                  rw [if_neg (by omega), if_neg (by omega)]
                rw [hlo] at hr
                simp only [List.take_succ_cons, List.take_zero, List.mem_cons,
                  List.not_mem_nil, or_false] at hbmem
                rcases hbmem with rfl | rfl
                · omega
                · exact hr.1
            · simp only [decodeRuneInString, if_neg ha, if_neg hb, if_pos hc, if_neg hr]
              exact ⟨le_refl 1, by simp, Or.inl (by simp)⟩
        · by_cases hd : b0 ≤ 0xEF
          · -- three-byte branch
            match rest with
            | [] =>
              simp only [decodeRuneInString, if_neg ha, if_neg hb, if_neg hc, if_pos hd]
              exact ⟨le_refl 1, by simp, Or.inl (by simp)⟩
            | [b1] =>
              simp only [decodeRuneInString, if_neg ha, if_neg hb, if_neg hc, if_pos hd]
              exact ⟨le_refl 1, by simp, Or.inl (by simp)⟩
            | b1 :: b2 :: rest2 =>
              by_cases hr : (acceptLo b0 ≤ b1 ∧ b1 ≤ acceptHi b0) ∧ (0x80 ≤ b2 ∧ b2 ≤ 0xBF)
              · simp only [decodeRuneInString, if_neg ha, if_neg hb, if_neg hc, if_pos hd,
                  if_pos hr]
                refine ⟨by omega, by simp, Or.inr ⟨?_, ?_⟩⟩
                · rw [List.take_succ_cons, List.take_succ_cons, List.take_succ_cons,
                    List.take_zero]
                  exact utf8EncodeRune_three b0 b1 b2 (by omega) hd hr.1.1 hr.1.2 hr.2.1 hr.2.2
                · intro _ b hbmem
                  have hlo : 0x80 ≤ acceptLo b0 := by
                    unfold acceptLo
                    split_ifs <;> omega
                  simp only [List.take_succ_cons, List.take_zero, List.mem_cons,
                    List.not_mem_nil, or_false] at hbmem
                  rcases hbmem with rfl | rfl | rfl
                  · omega
                  · omega
                  · exact hr.2.1
              · simp only [decodeRuneInString, if_neg ha, if_neg hb, if_neg hc, if_pos hd,
                  if_neg hr]
                exact ⟨le_refl 1, by simp, Or.inl (by simp)⟩
          · -- four-byte branch
            match rest with
            | [] =>
              simp only [decodeRuneInString, if_neg ha, if_neg hb, if_neg hc, if_neg hd]
              exact ⟨le_refl 1, by simp, Or.inl (by simp)⟩
            | [b1] =>
              simp only [decodeRuneInString, if_neg ha, if_neg hb, if_neg hc, if_neg hd]
              exact ⟨le_refl 1, by simp, Or.inl (by simp)⟩
            | [b1, b2] =>
              simp only [decodeRuneInString, if_neg ha, if_neg hb, if_neg hc, if_neg hd]
              exact ⟨le_refl 1, by simp, Or.inl (by simp)⟩
            | b1 :: b2 :: b3 :: rest3 =>
              by_cases hr : (acceptLo b0 ≤ b1 ∧ b1 ≤ acceptHi b0) ∧
                  (0x80 ≤ b2 ∧ b2 ≤ 0xBF) ∧ (0x80 ≤ b3 ∧ b3 ≤ 0xBF)
              · simp only [decodeRuneInString, if_neg ha, if_neg hb, if_neg hc, if_neg hd,
                  if_pos hr]
                refine ⟨by omega, by simp, Or.inr ⟨?_, ?_⟩⟩
                · rw [List.take_succ_cons, List.take_succ_cons, List.take_succ_cons,
                    List.take_succ_cons, List.take_zero]
                  exact utf8EncodeRune_four b0 b1 b2 b3 (by omega) (by omega)
                    hr.1.1 hr.1.2 hr.2.1.1 hr.2.1.2 hr.2.2.1 hr.2.2.2
                · intro _ b hbmem
                  have hlo : 0x80 ≤ acceptLo b0 := by
                    unfold acceptLo
                    split_ifs <;> omega
                  simp only [List.take_succ_cons, List.take_zero, List.mem_cons,
                    List.not_mem_nil, or_false] at hbmem
                  rcases hbmem with rfl | rfl | rfl | rfl
                  · omega
                  · omega
                  · exact hr.2.1.1
                  · exact hr.2.2.1
              · simp only [decodeRuneInString, if_neg ha, if_neg hb, if_neg hc, if_neg hd,
                  if_neg hr]
                exact ⟨le_refl 1, by simp, Or.inl (by simp)⟩

theorem decodeRune_size_pos (msg : List Nat) (hne : msg ≠ []) :
    1 ≤ (decodeRuneInString msg).2 :=
  (decodeRune_spec msg hne).1

theorem decodeRune_size_le (msg : List Nat) (hne : msg ≠ []) :
    (decodeRuneInString msg).2 ≤ msg.length :=
  (decodeRune_spec msg hne).2.1

theorem utf8ValidFuel_congr : ∀ (f1 f2 : Nat) (msg : List Nat),
    msg.length ≤ f1 → msg.length ≤ f2 → utf8ValidFuel f1 msg = utf8ValidFuel f2 msg := by
  intro f1
  induction f1 with
  | zero =>
    intro f2 msg h1 _
    have hmsg : msg = [] := List.length_eq_zero.mp (by omega)
    subst hmsg
    cases f2 <;> rfl
  | succ f ih =>
    intro f2 msg h1 h2
    match msg, f2 with
    | [], f2 => cases f2 <;> rfl
    | m :: ms, 0 => simp at h2
    | m :: ms, f2' + 1 =>
      have hne : (m :: ms : List Nat) ≠ [] := by simp
      have hs1 := decodeRune_size_pos (m :: ms) hne
      have hsle := decodeRune_size_le (m :: ms) hne
      simp only [utf8ValidFuel]
      by_cases hcond : (decodeRuneInString (m :: ms)).1 = runeError ∧
          (decodeRuneInString (m :: ms)).2 = 1
      · rw [if_pos hcond, if_pos hcond]
      · rw [if_neg hcond, if_neg hcond]
        apply ih
        · simp only [List.length_drop]
          simp only [List.length_cons] at h1 ⊢
          omega
        · simp only [List.length_drop]
          simp only [List.length_cons] at h2 ⊢
          omega

theorem utf8Valid_step (msg : List Nat) (hne : msg ≠ []) (hv : utf8Valid msg = true) :
    ¬((decodeRuneInString msg).1 = runeError ∧ (decodeRuneInString msg).2 = 1) ∧
    utf8Valid (msg.drop (decodeRuneInString msg).2) = true := by
  match msg with
  | m :: ms =>
    have hne' : (m :: ms : List Nat) ≠ [] := by simp
    have hs1 := decodeRune_size_pos (m :: ms) hne'
    have hsle := decodeRune_size_le (m :: ms) hne'
    unfold utf8Valid at hv
    simp only [List.length_cons, utf8ValidFuel] at hv
    by_cases hcond : (decodeRuneInString (m :: ms)).1 = runeError ∧
        (decodeRuneInString (m :: ms)).2 = 1
    · rw [if_pos hcond] at hv
      exact absurd hv (by simp)
    · rw [if_neg hcond] at hv
      refine ⟨hcond, ?_⟩
      unfold utf8Valid
      rw [utf8ValidFuel_congr _ ms.length _ (by simp [List.length_drop]) ?hlen]
      · exact hv
      case hlen =>
        simp only [List.length_drop, List.length_cons]
        omega

theorem flatMap_congr_fun {α β : Type} (l : List α) (f g : α → List β)
    (h : ∀ a ∈ l, f a = g a) : l.flatMap f = l.flatMap g := by
  induction l with
  | nil => rfl
  | cons a tl ih =>
    simp only [List.flatMap_cons]
    rw [h a (by simp), ih fun x hx => h x (by simp [hx])]

theorem encodeUncheckedFuel_eq (fuel : Nat) :
    ∀ msg : List Nat, msg.length ≤ fuel → utf8Valid msg = true →
      encodeGrpcMessageUncheckedFuel fuel msg = msg.flatMap escapeByte := by
  induction fuel with
  | zero =>
    intro msg h _
    have hmsg : msg = [] := List.length_eq_zero.mp (by omega)
    subst hmsg
    rfl
  | succ f ih =>
    intro msg hlen hv
    match msg with
    | [] => rfl
    | m :: ms =>
      have hne : (m :: ms : List Nat) ≠ [] := by simp
      obtain ⟨hnerr, hvtail⟩ := utf8Valid_step _ hne hv
      obtain ⟨hs1, hsle, hcase⟩ := decodeRune_spec _ hne
      rcases hcase with herr | ⟨henc, hbytes⟩
      · exact absurd herr hnerr
      · simp only [encodeGrpcMessageUncheckedFuel]
        rw [ih _ ?tail hvtail]
        case tail =>
          simp only [List.length_drop, List.length_cons]
          simp only [List.length_cons] at hlen
          omega
        rw [henc]
        conv_rhs => rw [← List.take_append_drop (decodeRuneInString (m :: ms)).2 (m :: ms)]
        rw [List.flatMap_append]
        congr 1
        apply flatMap_congr_fun
        intro b hb
        by_cases h2 : 2 ≤ (decodeRuneInString (m :: ms)).2
        · rw [encodeByte, if_pos (by omega), escapeByte,
            if_neg (by simp [isAllowedByte_false_of_ge b (hbytes h2 b hb)])]
        · have : (decodeRuneInString (m :: ms)).2 = 1 := by omega
          rw [this, encodeByte_one]

theorem decodeUnchecked_cons_ne (b : Nat) (L : List Nat) (hb : b ≠ percentByte) :
    decodeGrpcMessageUnchecked (b :: L) = b :: decodeGrpcMessageUnchecked L := by
  match L with
  | [] => rfl
  | [x] => rfl
  | x :: y :: tl => simp only [decodeGrpcMessageUnchecked, if_neg hb]

set_option maxRecDepth 4096 in
theorem parseHexPair_escape (b : Nat) (hb : b < 256) :
    parseHexPair (hexUpperDigit (b / 16)) (hexUpperDigit (b % 16)) = some b := by
  have h256 : ∀ b' : Nat, b' < 256 →
      parseHexPair (hexUpperDigit (b' / 16)) (hexUpperDigit (b' % 16)) = some b' := by decide
  exact h256 b hb

theorem decode_flatMap_escape (msg : List Nat) (h : ∀ b ∈ msg, b < 256) :
    decodeGrpcMessageUnchecked (msg.flatMap escapeByte) = msg := by
  induction msg with
  | nil => rfl
  | cons b tl ih =>
    simp only [List.flatMap_cons]
    by_cases hab : isAllowedByte b
    · rw [escapeByte, if_pos hab]
      simp only [List.singleton_append]
      rw [decodeUnchecked_cons_ne b _ (ne_percent_of_allowed b hab),
        ih fun x hx => h x (by simp [hx])]
    · rw [escapeByte, if_neg hab, percentEscape]
      simp only [List.cons_append, List.nil_append]
      simp only [decodeGrpcMessageUnchecked, if_pos rfl]
      rw [parseHexPair_escape b (h b (by simp))]
      rw [ih fun x hx => h x (by simp [hx])]
      simp

set_option maxRecDepth 4096 in
theorem escapeByte_printable (b : Nat) (hb : b < 256) :
    ∀ x ∈ escapeByte b, 0x20 ≤ x ∧ x ≤ 0x7E := by
  have h256 : ∀ b' : Nat, b' < 256 → ∀ x ∈ escapeByte b', 0x20 ≤ x ∧ x ≤ 0x7E := by decide
  exact h256 b hb

theorem escapeByte_ne_nil (b : Nat) : escapeByte b ≠ [] := by
  rw [escapeByte]
  split <;> simp [percentEscape]

theorem hasEscape_cons_of (b : Nat) (L : List Nat) (h : hasEscapeCandidate L = true) :
    hasEscapeCandidate (b :: L) = true := by
  match L with
  | [] => simp [hasEscapeCandidate] at h
  | [x] => simp [hasEscapeCandidate] at h
  | x :: y :: tl =>
    simp only [hasEscapeCandidate] at h ⊢
    rw [h]
    simp

theorem hasEscape_of_unallowed (msg : List Nat)
    (hex : ∃ b ∈ msg, isAllowedByte b = false) :
    hasEscapeCandidate (msg.flatMap escapeByte) = true := by
  induction msg with
  | nil =>
    obtain ⟨b, hb, _⟩ := hex
    simp at hb
  | cons a tl ih =>
    obtain ⟨b, hb, hba⟩ := hex
    simp only [List.flatMap_cons]
    rcases List.mem_cons.mp hb with rfl | hbtl
    · rw [escapeByte, if_neg (by simp [hba]), percentEscape]
      simp only [List.cons_append]
      simp [hasEscapeCandidate]
    · by_cases haa : isAllowedByte a
      · rw [escapeByte, if_pos haa]
        simp only [List.singleton_append]
        exact hasEscape_cons_of _ _ (ih ⟨b, hbtl, hba⟩)
      · rw [escapeByte, if_neg haa, percentEscape]
        simp only [List.cons_append]
        simp [hasEscapeCandidate]

theorem hasEscape_false_of_allowed (L : List Nat)
    (h : ∀ b ∈ L, isAllowedByte b = true) : hasEscapeCandidate L = false := by
  induction L with
  | nil => rfl
  | cons c tl ih =>
    have hc : c ≠ percentByte := ne_percent_of_allowed c (h c (by simp))
    rcases tl with _ | ⟨x, _ | ⟨y, tl'⟩⟩
    · rfl
    · rfl
    · simp only [hasEscapeCandidate]
      rw [ih fun b hb => h b (by simp [hb])]
      simp [hc]

/-- C9: for every byte string that is valid UTF-8, `decodeGrpcMessage`
inverts `encodeGrpcMessage`, and every byte of the encoded output lies in
the printable ASCII range 0x20..0x7E (non-printable bytes, non-ASCII runes
and the percent byte having been percent-escaped with uppercase hex). -/
theorem c9_encode_decode_roundtrip (msg : List Nat)
    (hbytes : ∀ b ∈ msg, b < 256) (hvalid : utf8Valid msg = true) :
    decodeGrpcMessage (encodeGrpcMessage msg) = msg ∧
    ∀ x ∈ encodeGrpcMessage msg, 0x20 ≤ x ∧ x ≤ 0x7E := by
  by_cases hmt : msg = []
  · subst hmt
    exact ⟨rfl, by simp [encodeGrpcMessage, decodeGrpcMessage]⟩
  by_cases hall : msg.all isAllowedByte
  · have henc : encodeGrpcMessage msg = msg := by
      rw [encodeGrpcMessage, if_neg hmt, if_pos hall]
    have hal : ∀ b ∈ msg, isAllowedByte b = true := List.all_eq_true.mp hall
    rw [henc]
    constructor
    · rw [decodeGrpcMessage, if_neg hmt, hasEscape_false_of_allowed msg hal]
      simp
    · intro x hx
      exact allowed_range x (hal x hx)
  · have henc : encodeGrpcMessage msg = encodeGrpcMessageUnchecked msg := by
      rw [encodeGrpcMessage, if_neg hmt, if_neg hall]
    have hflat : encodeGrpcMessageUnchecked msg = msg.flatMap escapeByte :=
      encodeUncheckedFuel_eq _ msg le_rfl hvalid
    have hnall : ∃ b ∈ msg, isAllowedByte b = false := by
      by_contra hcon
      push_neg at hcon
      exact hall (List.all_eq_true.mpr fun b hb => by
        have := hcon b hb
        revert this
        cases isAllowedByte b <;> simp)
    rw [henc, hflat]
    have hnil : msg.flatMap escapeByte ≠ [] := by
      match msg, hmt with
      | m :: ms, _ =>
        simp only [List.flatMap_cons, ne_eq, List.append_eq_nil]
        intro hcc
        exact escapeByte_ne_nil m hcc.1
    constructor
    · rw [decodeGrpcMessage, if_neg hnil, if_pos (hasEscape_of_unallowed msg hnall)]
      exact decode_flatMap_escape msg hbytes
    · intro x hx
      obtain ⟨b, hb, hxb⟩ := List.mem_flatMap.mp hx
      exact escapeByte_printable b (hbytes b hb) x hxb

/-- Witness for C9 at the concrete two-rune string `h`, U+00E9 (bytes
68 C3 A9): the encoder produces printable ASCII and the decoder inverts it. -/
theorem c9_witness :
    (∀ b ∈ ([0x68, 0xC3, 0xA9] : List Nat), b < 256) ∧
    utf8Valid [0x68, 0xC3, 0xA9] = true ∧
    (decodeGrpcMessage (encodeGrpcMessage [0x68, 0xC3, 0xA9]) = [0x68, 0xC3, 0xA9] ∧
     ∀ x ∈ encodeGrpcMessage [0x68, 0xC3, 0xA9], 0x20 ≤ x ∧ x ≤ 0x7E) :=
  ⟨by decide, by decide, c9_encode_decode_roundtrip _ (by decide) (by decide)⟩

theorem wrap64_eq_self (x : Int) (h1 : -(2 ^ 63) ≤ x) (h2 : x < 2 ^ 63) : wrap64 x = x := by
  unfold wrap64
  rw [Int.emod_eq_of_lt (by omega) (by omega)]
  omega

theorem parseDecDigits_lt : ∀ (l : List Nat) (acc n : Nat),
    parseDecDigits l acc = some n → n < (acc + 1) * 10 ^ l.length := by
  intro l
  induction l with
  | nil =>
    intro acc n h
    simp only [parseDecDigits, Option.some.injEq] at h
    subst h
    simp only [List.length_nil, pow_zero, mul_one]
    omega
  | cons c tl ih =>
    intro acc n h
    simp only [parseDecDigits] at h
    cases hd : decDigitVal c with
    | none => rw [hd] at h; exact absurd h (by simp)
    | some d =>
      rw [hd] at h
      have hb := ih _ _ h
      have hd9 : d ≤ 9 := by
        unfold decDigitVal at hd
        split_ifs at hd with hh
        simp only [Option.some.injEq] at hd
        omega
      simp only [List.length_cons, pow_succ]
      have hstep : (acc * 10 + d + 1) * 10 ^ tl.length ≤ (acc + 1) * (10 ^ tl.length * 10) := by
        have hle : acc * 10 + d + 1 ≤ (acc + 1) * 10 := by omega
        calc (acc * 10 + d + 1) * 10 ^ tl.length
            ≤ (acc + 1) * 10 * 10 ^ tl.length := Nat.mul_le_mul_right _ hle
          _ = (acc + 1) * (10 ^ tl.length * 10) := by ring
      omega

theorem goParseInt64_elim (s : List Nat) (t : Int) (h : goParseInt64 s = some t) :
    ∃ n : Nat, (t = (n : Int) ∨ t = -(n : Int)) ∧ n < 10 ^ s.length := by
  match s with
  | [] => simp [goParseInt64] at h
  | c :: rest =>
    simp only [goParseInt64] at h
    by_cases hsign : c = 0x2B ∨ c = 0x2D
    · rw [if_pos hsign] at h
      match rest with
      | [] => simp at h
      | r0 :: rs =>
        cases hp : parseDecDigits (r0 :: rs) 0 with
        | none => simp [hp] at h
        | some n =>
          simp only [hp] at h
          have hn := parseDecDigits_lt _ _ _ hp
          simp only [zero_add, one_mul] at hn
          refine ⟨n, ?_, ?_⟩
          · by_cases hneg : c = 0x2D
            · rw [if_pos hneg] at h
              split_ifs at h with hr
              right
              exact (Option.some_inj.mp h).symm
            · rw [if_neg hneg] at h
              split_ifs at h with hr
              left
              exact (Option.some_inj.mp h).symm
          · calc n < 10 ^ (r0 :: rs).length := hn
              _ ≤ 10 ^ (c :: r0 :: rs).length :=
                Nat.pow_le_pow_right (by norm_num) (by simp)
    · rw [if_neg hsign] at h
      cases hp : parseDecDigits (c :: rest) 0 with
      | none => simp [hp] at h
      | some n =>
        simp only [hp] at h
        have hn := parseDecDigits_lt _ _ _ hp
        simp only [zero_add, one_mul] at hn
        refine ⟨n, ?_, hn⟩
        split_ifs at h with hr
        left
        exact (Option.some_inj.mp h).symm

theorem decodeTimeout_none_iff (s : List Nat) :
    decodeTimeout s = none ↔
      (s.length < 2 ∨ 9 < s.length ∨
       timeoutUnitToDuration (s.getD (s.length - 1) 0) = none ∨
       goParseInt64 (s.take (s.length - 1)) = none) := by
  unfold decodeTimeout
  split_ifs with h1 h2
  · simp [h1]
  · simp [h2]
  · cases hu : timeoutUnitToDuration (s.getD (s.length - 1) 0) with
    | none => simp [h1, h2, hu]
    | some d =>
      cases hp : goParseInt64 (s.take (s.length - 1)) with
      | none => simp [h1, h2, hu, hp]
      | some t =>
        show (if d = timeHour ∧ maxHours < t then some maxInt64
          else some (wrap64 (d * t))) = none ↔ _
        split_ifs with hcl
        · simp [h1, h2]
        · simp [h1, h2]

/-- Helper: the value of maxHours (MaxInt64 over an hour of nanoseconds). -/
theorem maxHours_val : maxHours = 2562047 := by decide

/-- C10 counterexample: the claim demands an error whenever the digit prefix
does not parse as a non-negative int64, and that accepted results never
overflow; but the code accepts the timeout string "-9999999H" (whose prefix
parses as the negative value -9999999) and its product with time.Hour
overflows int64 and wraps to a positive duration. -/
theorem c10_counterexample :
    goParseInt64 [0x2D, 0x39, 0x39, 0x39, 0x39, 0x39, 0x39, 0x39] = some (-9999999) ∧
    decodeTimeout [0x2D, 0x39, 0x39, 0x39, 0x39, 0x39, 0x39, 0x39, 0x48] =
      some 893491747419103232 ∧
    (893491747419103232 : Int) ≠ timeHour * (-9999999) ∧
    decodeTimeout [0x2D, 0x39, 0x39, 0x39, 0x39, 0x39, 0x39, 0x39, 0x48] ≠ none := by
  refine ⟨by decide, by decide, by decide, by decide⟩

/-- C10 amended: decodeTimeout errors exactly on a length below 2 or above
9, an unrecognized unit byte, or a prefix that does not parse as an int64
(an optional sign and decimal digits); an accepted hour count above
MaxInt64/Hour is clamped to exactly MaxInt64; every other accepted input
yields the two's-complement-wrapped product, and whenever the parsed value
is non-negative the product fits in int64, so the result is exactly value
times unit with no overflow.  (Negative values are accepted, and large
negative hour counts do wrap; see the counterexample.) -/
theorem c10_decodeTimeout_amended (s : List Nat) :
    (decodeTimeout s = none ↔
      (s.length < 2 ∨ 9 < s.length ∨
       timeoutUnitToDuration (s.getD (s.length - 1) 0) = none ∨
       goParseInt64 (s.take (s.length - 1)) = none)) ∧
    (∀ d u t, decodeTimeout s = some d →
      timeoutUnitToDuration (s.getD (s.length - 1) 0) = some u →
      goParseInt64 (s.take (s.length - 1)) = some t →
      (u = timeHour ∧ maxHours < t → d = maxInt64) ∧
      (¬(u = timeHour ∧ maxHours < t) → d = wrap64 (u * t)) ∧
      (0 ≤ t → ¬(u = timeHour ∧ maxHours < t) →
        -(2 ^ 63) ≤ u * t ∧ u * t < 2 ^ 63 ∧ d = u * t)) := by
  refine ⟨decodeTimeout_none_iff s, ?_⟩
  intro d u t hd hu ht
  unfold decodeTimeout at hd
  split_ifs at hd with h1 h2
  rw [hu] at hd
  rw [ht] at hd
  have hd2 : (if u = timeHour ∧ maxHours < t then some maxInt64
      else some (wrap64 (u * t))) = some d := hd
  refine ⟨?_, ?_, ?_⟩
  · intro hcl
    rw [if_pos hcl] at hd2
    exact (Option.some_inj.mp hd2).symm
  · intro hcl
    rw [if_neg hcl] at hd2
    exact (Option.some_inj.mp hd2).symm
  · intro ht0 hncl
    rw [if_neg hncl] at hd2
    have hdw : d = wrap64 (u * t) := (Option.some_inj.mp hd2).symm
    obtain ⟨n, hn, hnb⟩ := goParseInt64_elim _ _ ht
    have hlen : (s.take (s.length - 1)).length ≤ 8 := by
      simp only [List.length_take]
      omega
    have hpow : (10 : Nat) ^ (s.take (s.length - 1)).length ≤ 10 ^ 8 :=
      Nat.pow_le_pow_right (by norm_num) hlen
    have hnb8 : n < 100000000 := by
      have hlt := lt_of_lt_of_le hnb hpow
      norm_num at hlt
      exact hlt
    have htlt : t < 100000000 := by
      rcases hn with rfl | rfl <;> omega
    have hp63 : (2 : Int) ^ 63 = 9223372036854775808 := by norm_num
    unfold timeoutUnitToDuration at hu
    split_ifs at hu <;>
      simp only [Option.some.injEq] at hu <;>
      subst hu
    · -- hour
      have hle : t ≤ maxHours := by
        by_contra hgt
        exact hncl ⟨rfl, by omega⟩
      rw [maxHours_val] at hle
      simp only [timeHour] at *
      refine ⟨by omega, by omega, ?_⟩
      rw [hdw, wrap64_eq_self _ (by omega) (by omega)]
    · simp only [timeMinute] at *
      refine ⟨by omega, by omega, ?_⟩
      rw [hdw, wrap64_eq_self _ (by omega) (by omega)]
    · simp only [timeSecond] at *
      refine ⟨by omega, by omega, ?_⟩
      rw [hdw, wrap64_eq_self _ (by omega) (by omega)]
    · simp only [timeMillisecond] at *
      refine ⟨by omega, by omega, ?_⟩
      rw [hdw, wrap64_eq_self _ (by omega) (by omega)]
    · simp only [timeMicrosecond] at *
      refine ⟨by omega, by omega, ?_⟩
      rw [hdw, wrap64_eq_self _ (by omega) (by omega)]
    · simp only [timeNanosecond] at *
      refine ⟨by omega, by omega, ?_⟩
      rw [hdw, wrap64_eq_self _ (by omega) (by omega)]

/-- Witness for the amended C10 theorem at the concrete accepted input "1H"
and at the rejected input "5x". -/
theorem c10_amended_witness :
    (decodeTimeout [0x35, 0x78] = none ↔
      ([0x35, 0x78] : List Nat).length < 2 ∨ 9 < ([0x35, 0x78] : List Nat).length ∨
       timeoutUnitToDuration (([0x35, 0x78] : List Nat).getD
         (([0x35, 0x78] : List Nat).length - 1) 0) = none ∨
       goParseInt64 (([0x35, 0x78] : List Nat).take
         (([0x35, 0x78] : List Nat).length - 1)) = none) ∧
    ((timeHour = timeHour ∧ maxHours < (1 : Int) → (3600000000000 : Int) = maxInt64) ∧
     (¬(timeHour = timeHour ∧ maxHours < (1 : Int)) →
       (3600000000000 : Int) = wrap64 (timeHour * 1)) ∧
     (0 ≤ (1 : Int) → ¬(timeHour = timeHour ∧ maxHours < (1 : Int)) →
       -(2 ^ 63) ≤ timeHour * 1 ∧ timeHour * 1 < 2 ^ 63 ∧
         (3600000000000 : Int) = timeHour * 1)) :=
  ⟨(c10_decodeTimeout_amended [0x35, 0x78]).1,
   (c10_decodeTimeout_amended [0x31, 0x48]).2 3600000000000 timeHour 1
     (by decide) (by decide) (by decide)⟩

end Transport

namespace Grpclb

/-- Modelled from the spec: the grpclb production sources are not in the
repository slice (only grpclb_test.go is), so the balancer policy is built
here from §3-§4.7 of the specification.  A Server mirrors the wire message
`Server = ip_address, port, load_balance_token, drop`. -/
structure Server where
  ip : Nat
  port : Nat
  loadBalanceToken : String
  drop : Bool
deriving DecidableEq, Repr

/-- Modelled from the spec (§3 Stats counters): the stats accumulator; the
per-token drop map is an association list in first-seen order. -/
structure RpcStats where
  numCallsStarted : Int
  numCallsFinished : Int
  numCallsFinishedWithClientFailedToSend : Int
  numCallsFinishedKnownReceived : Int
  numCallsDropped : List (String × Int)
deriving DecidableEq, Repr

/-- The all-zero stats value (also the post-drain state). -/
def zeroStats : RpcStats := ⟨0, 0, 0, 0, []⟩

/-- Increment the drop count of one token in the association-list map. -/
def incToken : List (String × Int) → String → List (String × Int)
  | [], tok => [(tok, 1)]
  | (k, v) :: rest, tok =>
    if k = tok then (k, v + 1) :: rest else (k, v) :: incToken rest tok

/-- Modelled from the spec (§4.1): call_started. -/
def callStarted (s : RpcStats) : RpcStats :=
  { s with numCallsStarted := s.numCallsStarted + 1 }

/-- Modelled from the spec (§4.1): the terminal outcomes of call_finished. -/
inductive CallOutcome where
  | knownReceived
  | failedToSend
  | other
deriving DecidableEq, Repr

/-- Modelled from the spec (§4.1): call_finished(outcome) increments
finished and, if applicable, one specific counter. -/
def callFinished (o : CallOutcome) (s : RpcStats) : RpcStats :=
  match o with
  | .knownReceived =>
    { s with numCallsFinished := s.numCallsFinished + 1,
             numCallsFinishedKnownReceived := s.numCallsFinishedKnownReceived + 1 }
  | .failedToSend =>
    { s with numCallsFinished := s.numCallsFinished + 1,
             numCallsFinishedWithClientFailedToSend :=
               s.numCallsFinishedWithClientFailedToSend + 1 }
  | .other => { s with numCallsFinished := s.numCallsFinished + 1 }

/-- Modelled from the spec (§4.1): call_dropped(token) increments started,
finished, and the per-token drop count. -/
def callDropped (tok : String) (s : RpcStats) : RpcStats :=
  { s with numCallsStarted := s.numCallsStarted + 1,
           numCallsFinished := s.numCallsFinished + 1,
           numCallsDropped := incToken s.numCallsDropped tok }

/-- Modelled from the spec (§4.1): drain atomically reads all counters into
a report and zeroes them. -/
def drain (s : RpcStats) : RpcStats × RpcStats := (s, zeroStats)

/-- Modelled from the spec (§4.1): the suppression test — every scalar
counter zero and the drop map empty. -/
def isZeroStats (s : RpcStats) : Bool :=
  s.numCallsStarted == 0 && s.numCallsFinished == 0 &&
  s.numCallsFinishedWithClientFailedToSend == 0 &&
  s.numCallsFinishedKnownReceived == 0 && s.numCallsDropped.isEmpty

/-- Modelled from the spec (§4.8): the operating regimes. -/
inductive Mode where
  | initMode
  | remote
  | fallback
deriving DecidableEq, Repr

/-- Modelled from the spec (§3, §4.6, §4.7): the policy state that picking
and event handling observe: mode, last balancer server list, resolver
fallback backends, current balancer address, drop index, child round-robin
index, per-address connectivity, stats accumulator. -/
structure LbState where
  mode : Mode
  serverList : List Server
  fallbackAddrs : List (Nat × Nat)
  curBalancer : Option Nat
  dropIndex : Nat
  rrIndex : Nat
  ready : Nat × Nat → Bool
  stats : RpcStats

/-- Modelled from the spec (§4.6): in fallback the child policy operates on
the resolver backend list with an empty drop plan and a sentinel (empty)
token; otherwise on the balancer server list. -/
def effectiveServers (st : LbState) : List Server :=
  if st.mode = .fallback then
    st.fallbackAddrs.map fun a =>
      { ip := a.1, port := a.2, loadBalanceToken := "", drop := false }
  else st.serverList

/-- Modelled from the spec (§4.2): the outcome of one pick. -/
inductive PickResult where
  | dropped (token : String)
  | picked (ip port : Nat) (lbToken : String)
  | tryAgain
deriving DecidableEq, Repr

/-- The gRPC status codes the policy itself produces (§7). -/
inductive GrpcCode where
  | ok
  | unavailable
deriving DecidableEq, Repr

/-- Modelled from the spec (§4.2 step 1, §7): a drop is a terminal
per-request failure with code Unavailable; other pick outcomes carry no
error from the policy. -/
def resultCode : PickResult → Option GrpcCode
  | .dropped _ => some .unavailable
  | .picked _ _ _ => none
  | .tryAgain => none

/-- The reserved request header name (§6). -/
def lbTokenHeaderName : String := "lb-token"

/-- Modelled from the spec (§4.2 step 3, §6): the callback bundle attaches
the picked backend token as the reserved lb-token metadata header on the
outgoing request. -/
def outboundMetadata : PickResult → List (String × String)
  | .picked _ _ tok => [(lbTokenHeaderName, tok)]
  | _ => []

/-- Placeholder server used only as the default of in-bounds getD calls. -/
def defaultServer : Server := { ip := 0, port := 0, loadBalanceToken := "", drop := false }

/-- Modelled from the spec (§3 Drop plan, §4.2 Picker, §4.4 Child policy):
consult the drop plan at position drop_index mod n; a drop entry fails the
request, is counted under its token, and advances the index; otherwise the
index advances and the round-robin child picks the next currently-ready
addressed entry in server-list order (drops stripped, duplicates kept for
weighting); with no ready subchannel the pick queues (try-again). -/
def pickOne (st : LbState) : PickResult × LbState :=
  let l := effectiveServers st
  if l.length = 0 then (.tryAgain, st)
  else
    let e := l.getD (st.dropIndex % l.length) defaultServer
    if e.drop then
      (.dropped e.loadBalanceToken,
       { st with dropIndex := st.dropIndex + 1,
                 stats := callDropped e.loadBalanceToken st.stats })
    else
      let avail := (l.filter fun s => !s.drop).filter fun s => st.ready (s.ip, s.port)
      if avail.length = 0 then (.tryAgain, { st with dropIndex := st.dropIndex + 1 })
      else
        let b := avail.getD (st.rrIndex % avail.length) defaultServer
        (.picked b.ip b.port b.loadBalanceToken,
         { st with dropIndex := st.dropIndex + 1, rrIndex := st.rrIndex + 1 })

/-- Modelled from the spec (§4.2, §7, scenario S2): the pick decision is
independent of whether the request is fail-fast or wait-for-ready; in
particular a drop is terminal for both call kinds. -/
def pickForCall (_waitForReady : Bool) (st : LbState) : PickResult × LbState :=
  pickOne st

/-- The results of m consecutive picks from a state. -/
def pickSeq : LbState → Nat → List PickResult
  | _, 0 => []
  | st, m + 1 =>
    let rs := pickOne st
    rs.1 :: pickSeq rs.2 m

/-- Whether a pick result is a drop. -/
def isDropResult : PickResult → Bool
  | .dropped _ => true
  | _ => false

/-- The drop positions among m consecutive picks. -/
def dropPattern (st : LbState) (m : Nat) : List Bool :=
  (pickSeq st m).map isDropResult

/-- Modelled from the spec (§4.7): the inputs of the policy coordinator. -/
inductive LbEvent where
  | resolverUpdate (backendAddrs : List (Nat × Nat)) (balancerAddrs : List Nat)
  | serverListMsg (servers : List Server)
  | fallbackMsg
  | connectivityChange (addr : Nat × Nat) (isReady : Bool)

/-- Modelled from the spec (§4.7, §6 Resolver contract): outward actions of
the coordinator.  resolveNow exists because the resolver interface offers
it; the specification forbids issuing it merely because the balancer
address set is empty. -/
inductive LbAction where
  | publishPicker
  | switchBalancer (addr : Nat)
  | resolveNow
deriving DecidableEq, Repr

/-- Modelled from the spec (§4.6 transitions, §4.7 inputs): a resolver
update with an empty balancer set enters fallback with the resolver
backends and issues no resolve-now request; with a nonempty set it keeps
the mode and switches the balancer client only when the current balancer
address left the list; a server list sets remote mode and resets the drop
index exactly when the list differs from the current one; a fallback
directive enters fallback (the next server list leaves it); a connectivity
change only updates readiness. -/
def handleEvent (st : LbState) (ev : LbEvent) : LbState × List LbAction :=
  match ev with
  | .resolverUpdate be ba =>
    match ba with
    | [] => ({ st with mode := .fallback, fallbackAddrs := be }, [.publishPicker])
    | b0 :: _ =>
      match st.curBalancer with
      | some c =>
        if ba.contains c then ({ st with fallbackAddrs := be }, [])
        else ({ st with fallbackAddrs := be, curBalancer := some b0 },
              [.switchBalancer b0])
      | none => ({ st with fallbackAddrs := be, curBalancer := some b0 },
                 [.switchBalancer b0])
  | .serverListMsg sl =>
    if sl = st.serverList then ({ st with mode := .remote }, [.publishPicker])
    else ({ st with mode := .remote, serverList := sl, dropIndex := 0 },
          [.publishPicker])
  | .fallbackMsg => ({ st with mode := .fallback }, [.publishPicker])
  | .connectivityChange a b =>
    ({ st with ready := fun x => if x = a then b else st.ready x }, [.publishPicker])

/-- Fold a sequence of events through the coordinator, keeping the state. -/
def applyEvents (st : LbState) (evs : List LbEvent) : LbState :=
  evs.foldl (fun s e => (handleEvent s e).1) st

/-- Whether an event is a balancer ServerList message. -/
def isServerListEvent : LbEvent → Bool
  | .serverListMsg _ => true
  | _ => false

/-- Modelled from the spec (§4.1, §4.5): reporting-loop state — the stats
accumulator and whether the initial post-stream-start report was sent. -/
structure ReporterState where
  stats : RpcStats
  sentInitial : Bool
deriving DecidableEq, Repr

/-- Modelled from the spec (§4.1 suppression, §4.5 step 4): each tick
drains the accumulator and sends the report unless it is all-zero and the
initial report was already sent. -/
def reportTick (rs : ReporterState) : Option RpcStats × ReporterState :=
  let dr := drain rs.stats
  if isZeroStats dr.1 && rs.sentInitial then
    (none, { stats := dr.2, sentInitial := true })
  else (some dr.1, { stats := dr.2, sentInitial := true })

/-- Reporter immediately after stream start: nothing sent yet. -/
def freshReporter : ReporterState := { stats := zeroStats, sentInitial := false }

/-- The reports actually sent over k ticks with no RPC activity between
ticks. -/
def idleReports : ReporterState → Nat → List RpcStats
  | _, 0 => []
  | rs, k + 1 =>
    let r := reportTick rs
    match r.1 with
    | some rep => rep :: idleReports r.2 k
    | none => idleReports r.2 k

/-- Modelled from the spec (§4.1, §4.2, scenario S6): sequential unary
calls; a routed pick starts the call and finishes it known-received (the
backend is healthy in the stats scenarios); a drop was already counted by
the picker; a queued pick does not touch the stats. -/
def runUnaryCalls : LbState → Nat → LbState
  | st, 0 => st
  | st, k + 1 =>
    let rs := pickOne st
    let st2 :=
      match rs.1 with
      | .picked _ _ _ =>
        { rs.2 with stats := callFinished .knownReceived (callStarted rs.2.stats) }
      | _ => rs.2
    runUnaryCalls st2 k

/-- The load-balance token of the tests. -/
def lbTok : String := "iamatoken"

/-- Backend B0 of the drop scenarios. -/
def b0Server : Server := { ip := 1, port := 81, loadBalanceToken := lbTok, drop := false }

/-- Backend B1 of the drop scenarios. -/
def b1Server : Server := { ip := 2, port := 82, loadBalanceToken := lbTok, drop := false }

/-- The tokenless drop entry of TestDropRequest (only Drop is set). -/
def dropServer : Server := { ip := 0, port := 0, loadBalanceToken := "", drop := true }

/-- The drop entry carrying the test token, as in the stats scenarios. -/
def dropServerTok : Server := { ip := 0, port := 0, loadBalanceToken := lbTok, drop := true }

/-- The TestDropRequest server list [B0, B1, DROP]. -/
def slDrop3 : List Server := [b0Server, b1Server, dropServer]

/-- A state serving slDrop3 in remote mode with the given indices, B0
readiness, and stats (B1 always ready). -/
def dropScenario (i j : Nat) (b0Ready : Bool) (s : RpcStats) : LbState :=
  { mode := .remote, serverList := slDrop3, fallbackAddrs := [], curBalancer := some 0,
    dropIndex := i, rrIndex := j,
    ready := fun a => if a = (1, 81) then b0Ready else true, stats := s }

/-- The stats-scenario server list [B0, DROP(T)] of runAndCheckStats. -/
def slStats : List Server := [b0Server, dropServerTok]

/-- Initial state of the stats scenario S6. -/
def statsScenario : LbState :=
  { mode := .remote, serverList := slStats, fallbackAddrs := [], curBalancer := some 0,
    dropIndex := 0, rrIndex := 0, ready := fun _ => true, stats := zeroStats }

/-- The TestGRPCLBWeighted server list [B0, B0, B1, B0, B1]. -/
def slWeighted : List Server := [b0Server, b0Server, b1Server, b0Server, b1Server]

/-- Initial state of the weighted round-robin scenario S1. -/
def weightedScenario : LbState :=
  { mode := .remote, serverList := slWeighted, fallbackAddrs := [], curBalancer := some 0,
    dropIndex := 0, rrIndex := 0, ready := fun _ => true, stats := zeroStats }

/-- One cycle of picks produced by slWeighted (the 00101 pattern). -/
def weightedPattern : List PickResult :=
  [.picked 1 81 lbTok, .picked 1 81 lbTok, .picked 2 82 lbTok,
   .picked 1 81 lbTok, .picked 2 82 lbTok]

/-- Whether a pick result routes to the address (a, b). -/
def picksAddr (a b : Nat) : PickResult → Bool
  | .picked ip port _ => ip == a && port == b
  | _ => false

theorem pickOne_empty (st : LbState) (h0 : (effectiveServers st).length = 0) :
    pickOne st = (.tryAgain, st) := by
  simp only [pickOne]
  rw [if_pos h0]

theorem pickOne_frame (st : LbState) :
    (pickOne st).2.mode = st.mode ∧ (pickOne st).2.serverList = st.serverList ∧
    (pickOne st).2.fallbackAddrs = st.fallbackAddrs ∧ (pickOne st).2.ready = st.ready := by
  simp only [pickOne]
  split
  · exact ⟨rfl, rfl, rfl, rfl⟩
  · split
    · exact ⟨rfl, rfl, rfl, rfl⟩
    · split
      · exact ⟨rfl, rfl, rfl, rfl⟩
      · exact ⟨rfl, rfl, rfl, rfl⟩

theorem effectiveServers_pickOne (st : LbState) :
    effectiveServers (pickOne st).2 = effectiveServers st := by
  obtain ⟨hm, hsl, hfb, _⟩ := pickOne_frame st
  unfold effectiveServers
  rw [hm, hsl, hfb]

theorem pickOne_dropIndex (st : LbState) (h0 : (effectiveServers st).length ≠ 0) :
    (pickOne st).2.dropIndex = st.dropIndex + 1 := by
  simp only [pickOne]
  rw [if_neg h0]
  split
  · rfl
  · split
    · rfl
    · rfl

theorem pickOne_isDrop (st : LbState) (h0 : (effectiveServers st).length ≠ 0) :
    isDropResult (pickOne st).1 =
      ((effectiveServers st).getD (st.dropIndex % (effectiveServers st).length)
        defaultServer).drop := by
  simp only [pickOne]
  rw [if_neg h0]
  by_cases hd : ((effectiveServers st).getD (st.dropIndex % (effectiveServers st).length)
      defaultServer).drop = true
  · rw [if_pos hd, hd]
    rfl
  · rw [if_neg hd]
    rw [Bool.not_eq_true] at hd
    rw [hd]
    split
    · rfl
    · rfl

theorem pickOne_picked_mem (st : LbState) (ip port : Nat) (tok : String)
    (h : (pickOne st).1 = .picked ip port tok) :
    ∃ e ∈ effectiveServers st, e.drop = false ∧ st.ready (e.ip, e.port) = true ∧
      e.ip = ip ∧ e.port = port ∧ e.loadBalanceToken = tok := by
  simp only [pickOne] at h
  split at h
  · exact absurd h (by simp)
  · split at h
    · exact absurd h (by simp)
    · split at h
      · exact absurd h (by simp)
      · rename_i h0 hdrop hav
        simp only [PickResult.picked.injEq] at h
        obtain ⟨hip, hport, htok⟩ := h
        set avail := ((effectiveServers st).filter fun s => !s.drop).filter
          (fun s => st.ready (s.ip, s.port)) with havd
        have hlt : st.rrIndex % avail.length < avail.length :=
          Nat.mod_lt _ (Nat.pos_of_ne_zero hav)
        have hmem : avail.getD (st.rrIndex % avail.length) defaultServer ∈ avail := by
          rw [List.getD_eq_getElem _ _ hlt]
          exact List.getElem_mem hlt
        rw [havd] at hmem
        obtain ⟨hmem1, hrdy⟩ := List.mem_filter.mp hmem
        obtain ⟨hmem2, hnd⟩ := List.mem_filter.mp hmem1
        refine ⟨_, hmem2, by simpa using hnd, hrdy, hip, hport, htok⟩

theorem pickOne_stats (st : LbState) :
    (pickOne st).2.stats =
      match (pickOne st).1 with
      | .dropped tok => callDropped tok st.stats
      | _ => st.stats := by
  simp only [pickOne]
  split
  · rfl
  · split
    · rfl
    · split
      · rfl
      · rfl

theorem dropPattern_zero (st : LbState) (h0 : (effectiveServers st).length = 0) (m : Nat) :
    dropPattern st m = List.replicate m false := by
  induction m with
  | zero => rfl
  | succ m ih =>
    unfold dropPattern at ih ⊢
    simp only [pickSeq, pickOne_empty st h0, List.map_cons]
    rw [ih]
    rfl

theorem dropPattern_formula (st : LbState) (h0 : (effectiveServers st).length ≠ 0) (m : Nat) :
    dropPattern st m = (List.range m).map fun t =>
      ((effectiveServers st).getD ((st.dropIndex + t) % (effectiveServers st).length)
        defaultServer).drop := by
  induction m generalizing st with
  | zero => rfl
  | succ m ih =>
    have h0' : (effectiveServers (pickOne st).2).length ≠ 0 := by
      rw [effectiveServers_pickOne]
      exact h0
    unfold dropPattern
    simp only [pickSeq, List.map_cons]
    have htail := ih (pickOne st).2 h0'
    unfold dropPattern at htail
    rw [htail, effectiveServers_pickOne, pickOne_dropIndex st h0,
      pickOne_isDrop st h0, List.range_succ_eq_map, List.map_cons, List.map_map]
    have harg : ∀ t : Nat, st.dropIndex + 1 + t = st.dropIndex + (t + 1) := fun t => by omega
    simp only [Function.comp, Nat.succ_eq_add_one, harg, Nat.add_zero]
    congr 1

theorem pickOne_live_drop (i j : Nat) (s : RpcStats) (hi : i % 3 = 2) :
    pickOne (dropScenario i j true s) =
      (.dropped "", dropScenario (i + 1) j true (callDropped "" s)) := by
  simp [pickOne, effectiveServers, dropScenario, slDrop3, hi,
    b0Server, b1Server, dropServer]

theorem pickOne_live_nondrop (i j : Nat) (s : RpcStats) (hi : i % 3 ≠ 2) :
    pickOne (dropScenario i j true s) =
      (.picked ([b0Server, b1Server].getD (j % 2) defaultServer).ip
        ([b0Server, b1Server].getD (j % 2) defaultServer).port
        ([b0Server, b1Server].getD (j % 2) defaultServer).loadBalanceToken,
       dropScenario (i + 1) (j + 1) true s) := by
  have hcase : i % 3 = 0 ∨ i % 3 = 1 := by omega
  rcases hcase with h | h <;>
    simp [pickOne, effectiveServers, dropScenario, slDrop3, h,
      b0Server, b1Server, dropServer]

theorem pickOne_stopped_drop (i j : Nat) (s : RpcStats) (hi : i % 3 = 2) :
    pickOne (dropScenario i j false s) =
      (.dropped "", dropScenario (i + 1) j false (callDropped "" s)) := by
  simp [pickOne, effectiveServers, dropScenario, slDrop3, hi,
    b0Server, b1Server, dropServer]

theorem pickOne_stopped_nondrop (i j : Nat) (s : RpcStats) (hi : i % 3 ≠ 2) :
    pickOne (dropScenario i j false s) =
      (.picked 2 82 lbTok, dropScenario (i + 1) (j + 1) false s) := by
  have hcase : i % 3 = 0 ∨ i % 3 = 1 := by omega
  rcases hcase with h | h <;>
    simp [pickOne, effectiveServers, dropScenario, slDrop3, h, Nat.mod_one,
      b0Server, b1Server, dropServer]

theorem handleEvent_stop_b0 (i j : Nat) (s : RpcStats) :
    (handleEvent (dropScenario i j true s) (.connectivityChange (1, 81) false)).1 =
      dropScenario i j false s := by
  simp only [handleEvent, dropScenario]
  congr 1
  funext x
  by_cases hx : x = (1, 81)
  · simp [hx]
  · simp [hx]

/-- C1: tearing a backend down (a connectivity change) never changes the
drop index, and the cyclic drop offsets of all subsequent picks are
unchanged; the drop index is reset by a server list exactly when the list
differs from the current one; concretely, with active server list
[B0, B1, DROP] and the drop index one step past a full cycle, stopping B0
yields the pick sequence (B1, drop, B1) rather than (B1, B1, drop). -/
theorem c1_drop_index_preserved :
    (∀ (st : LbState) (a : Nat × Nat) (b : Bool),
       (handleEvent st (.connectivityChange a b)).1.dropIndex = st.dropIndex ∧
       ∀ m, dropPattern (handleEvent st (.connectivityChange a b)).1 m = dropPattern st m) ∧
    (∀ (st : LbState) (sl : List Server),
       (handleEvent st (.serverListMsg sl)).1.dropIndex =
         if sl = st.serverList then st.dropIndex else 0) ∧
    (∀ i j, i % 3 = 1 →
       pickSeq ((handleEvent (dropScenario i j true zeroStats)
           (.connectivityChange (1, 81) false)).1) 3 =
         [.picked 2 82 lbTok, .dropped "", .picked 2 82 lbTok]) := by
  refine ⟨?_, ?_, ?_⟩
  · intro st a b
    refine ⟨rfl, ?_⟩
    intro m
    by_cases h0 : (effectiveServers st).length = 0
    · rw [dropPattern_zero (handleEvent st (.connectivityChange a b)).1 h0,
        dropPattern_zero st h0]
    · rw [dropPattern_formula (handleEvent st (.connectivityChange a b)).1 h0,
        dropPattern_formula st h0]
      rfl
  · intro st sl
    by_cases hsame : sl = st.serverList
    · simp [handleEvent, hsame]
    · simp [handleEvent, hsame]
  · intro i j hi
    rw [handleEvent_stop_b0]
    have h2 : (i + 1) % 3 = 2 := by omega
    simp only [pickSeq, pickOne_stopped_nondrop i j zeroStats (by omega),
      pickOne_stopped_drop (i + 1) (j + 1) zeroStats h2,
      pickOne_stopped_nondrop (i + 2) (j + 1) (callDropped "" zeroStats) (by omega)]

/-- Witness for C1 at the concrete index 4 (one step past a full cycle). -/
theorem c1_witness :
    (4 : Nat) % 3 = 1 ∧
    pickSeq ((handleEvent (dropScenario 4 0 true zeroStats)
        (.connectivityChange (1, 81) false)).1) 3 =
      [.picked 2 82 lbTok, .dropped "", .picked 2 82 lbTok] :=
  ⟨by decide, c1_drop_index_preserved.2.2 4 0 (by decide)⟩

/-- C2: for every state whose effective server list is nonempty — so for
every server list containing a drop entry, whenever the drop plan position
drop_index mod n holds that entry — the pick immediately fails with gRPC
code Unavailable and is counted under that entry's load-balance token,
identically for fail-fast and wait-for-ready calls; and for the concrete
server list [B0, B1, DROP] picks cycle through the list positions in
order: picks at offsets other than 2 route to the addressed backends B0
and B1, and among any m consecutive picks exactly those at cyclic offset 2
are drops. -/
theorem c2_drop_unavailable :
    (∀ (st : LbState) (wfr : Bool),
      (effectiveServers st).length ≠ 0 →
      ((effectiveServers st).getD (st.dropIndex % (effectiveServers st).length)
        defaultServer).drop = true →
      pickForCall wfr st =
        (.dropped ((effectiveServers st).getD
            (st.dropIndex % (effectiveServers st).length) defaultServer).loadBalanceToken,
         { st with dropIndex := st.dropIndex + 1,
                   stats := callDropped ((effectiveServers st).getD
                     (st.dropIndex % (effectiveServers st).length)
                     defaultServer).loadBalanceToken st.stats }) ∧
      resultCode (pickForCall wfr st).1 = some .unavailable) ∧
    (∀ (i j : Nat) (s : RpcStats) (wfr : Bool),
      (i % 3 ≠ 2 →
        ∃ e, (e = b0Server ∨ e = b1Server) ∧
          (pickForCall wfr (dropScenario i j true s)).1 =
            .picked e.ip e.port e.loadBalanceToken) ∧
      (∀ m t, t < m →
        ((dropPattern (dropScenario i j true s) m).getD t false = true ↔
          (i + t) % 3 = 2))) := by
  constructor
  · intro st wfr h0 hdrop
    have hpick : pickForCall wfr st =
        (.dropped ((effectiveServers st).getD
            (st.dropIndex % (effectiveServers st).length) defaultServer).loadBalanceToken,
         { st with dropIndex := st.dropIndex + 1,
                   stats := callDropped ((effectiveServers st).getD
                     (st.dropIndex % (effectiveServers st).length)
                     defaultServer).loadBalanceToken st.stats }) := by
      simp only [pickForCall, pickOne]
      rw [if_neg h0, if_pos hdrop]
    refine ⟨hpick, ?_⟩
    rw [hpick]
    rfl
  · intro i j s wfr
    constructor
    · intro hi
      rw [pickForCall, pickOne_live_nondrop i j s hi]
      refine ⟨[b0Server, b1Server].getD (j % 2) defaultServer, ?_, rfl⟩
      have hj : j % 2 = 0 ∨ j % 2 = 1 := by omega
      rcases hj with h | h <;> rw [h] <;> simp
    · intro m t ht
      have h0 : (effectiveServers (dropScenario i j true s)).length ≠ 0 := by
        simp [effectiveServers, dropScenario, slDrop3]
      rw [dropPattern_formula _ h0]
      have hlen : t < ((List.range m).map fun u =>
          ((effectiveServers (dropScenario i j true s)).getD
            (((dropScenario i j true s).dropIndex + u) %
              (effectiveServers (dropScenario i j true s)).length)
            defaultServer).drop).length := by
        simp [ht]
      rw [List.getD_eq_getElem _ _ hlen, List.getElem_map, List.getElem_range]
      have hcase : (i + t) % 3 = 0 ∨ (i + t) % 3 = 1 ∨ (i + t) % 3 = 2 := by omega
      have heff : effectiveServers (dropScenario i j true s) = slDrop3 := rfl
      have hdi : (dropScenario i j true s).dropIndex = i := rfl
      rw [heff, hdi]
      rcases hcase with h | h | h <;>
        rw [show slDrop3.length = 3 from rfl, h] <;>
        simp [slDrop3, b0Server, b1Server, dropServer]

/-- Witness for C2: the universal drop rule applied at the drop scenario
with drop index 2, the drop slot of [B0, B1, DROP], for a wait-for-ready
call. -/
theorem c2_witness :
    (effectiveServers (dropScenario 2 0 true zeroStats)).length ≠ 0 ∧
    ((effectiveServers (dropScenario 2 0 true zeroStats)).getD
      ((dropScenario 2 0 true zeroStats).dropIndex %
        (effectiveServers (dropScenario 2 0 true zeroStats)).length)
      defaultServer).drop = true ∧
    (pickForCall true (dropScenario 2 0 true zeroStats) =
      (.dropped ((effectiveServers (dropScenario 2 0 true zeroStats)).getD
          ((dropScenario 2 0 true zeroStats).dropIndex %
            (effectiveServers (dropScenario 2 0 true zeroStats)).length)
          defaultServer).loadBalanceToken,
       { dropScenario 2 0 true zeroStats with
           dropIndex := (dropScenario 2 0 true zeroStats).dropIndex + 1,
           stats := callDropped ((effectiveServers (dropScenario 2 0 true zeroStats)).getD
             ((dropScenario 2 0 true zeroStats).dropIndex %
               (effectiveServers (dropScenario 2 0 true zeroStats)).length)
             defaultServer).loadBalanceToken (dropScenario 2 0 true zeroStats).stats }) ∧
     resultCode (pickForCall true (dropScenario 2 0 true zeroStats)).1 =
       some .unavailable) :=
  ⟨by decide, by decide,
   c2_drop_unavailable.1 (dropScenario 2 0 true zeroStats) true (by decide) (by decide)⟩

set_option maxRecDepth 100000 in
/-- C4: forty sequential unary calls against the server list [B0, DROP(T)]
drain to the report started=40, finished=40, known-received=20 and
per-token drops T=20; and for every state and call count this call driver
advances started and finished in lockstep, so every started call is
observed by exactly one terminal outcome. -/
theorem c4_stats_unary_drop :
    (drain (runUnaryCalls statsScenario 40).stats).1 =
      { numCallsStarted := 40, numCallsFinished := 40,
        numCallsFinishedWithClientFailedToSend := 0,
        numCallsFinishedKnownReceived := 20,
        numCallsDropped := [(lbTok, 20)] } ∧
    (∀ (st : LbState) (k : Nat),
      (runUnaryCalls st k).stats.numCallsStarted - st.stats.numCallsStarted =
        (runUnaryCalls st k).stats.numCallsFinished - st.stats.numCallsFinished) := by
  constructor
  · decide
  · intro st k
    induction k generalizing st with
    | zero => simp [runUnaryCalls]
    | succ k ih =>
      simp only [runUnaryCalls]
      have hst := pickOne_stats st
      rcases hp : (pickOne st).1 with tok | ⟨ip, port, tok⟩ | _
      · rw [hp] at hst
        simp only [hp]
        have h1 : (pickOne st).2.stats.numCallsStarted = st.stats.numCallsStarted + 1 := by
          rw [hst]
          rfl
        have h2 : (pickOne st).2.stats.numCallsFinished = st.stats.numCallsFinished + 1 := by
          rw [hst]
          rfl
        have h3 := ih (pickOne st).2
        omega
      · rw [hp] at hst
        have hst' : (pickOne st).2.stats = st.stats := hst
        simp only [hp]
        have h3 := ih { (pickOne st).2 with
          stats := callFinished .knownReceived (callStarted (pickOne st).2.stats) }
        dsimp only at h3
        rw [hst'] at h3 ⊢
        have h1 : (callFinished .knownReceived
            (callStarted st.stats)).numCallsStarted = st.stats.numCallsStarted + 1 := rfl
        have h2 : (callFinished .knownReceived
            (callStarted st.stats)).numCallsFinished = st.stats.numCallsFinished + 1 := rfl
        omega
      · rw [hp] at hst
        simp only [hp]
        have h3 := ih (pickOne st).2
        rw [hst] at h3
        exact h3

theorem reportTick_silent : reportTick { stats := zeroStats, sentInitial := true } =
    (none, { stats := zeroStats, sentInitial := true }) := by decide

theorem reportTick_fresh : reportTick freshReporter =
    (some zeroStats, { stats := zeroStats, sentInitial := true }) := by decide

theorem idleReports_silent (k : Nat) :
    idleReports { stats := zeroStats, sentInitial := true } k = [] := by
  induction k with
  | zero => rfl
  | succ k ih =>
    simp only [idleReports, reportTick_silent]
    exact ih

/-- C6: a drained report is suppressed exactly when every scalar counter is
zero and the drop map is empty and the initial post-stream-start report was
already sent; with no RPCs the balancer client sends exactly one all-zero
report, at stream start, over any positive number of reporting intervals. -/
theorem c6_quash_empty :
    (∀ rs : ReporterState, (reportTick rs).1 = none ↔
       (isZeroStats (drain rs.stats).1 = true ∧ rs.sentInitial = true)) ∧
    (∀ k, 1 ≤ k → idleReports freshReporter k = [zeroStats]) := by
  constructor
  · intro rs
    unfold reportTick
    by_cases hz : (isZeroStats (drain rs.stats).1 && rs.sentInitial) = true
    · rw [if_pos hz]
      simp only [Bool.and_eq_true] at hz
      simp [hz]
    · rw [if_neg hz]
      simp only [Bool.and_eq_true] at hz
      simp [hz]
  · intro k hk
    match k, hk with
    | k' + 1, _ =>
      simp only [idleReports, reportTick_fresh]
      rw [idleReports_silent]

/-- Witness for C6 at the fresh reporter and five idle intervals. -/
theorem c6_witness :
    ((reportTick freshReporter).1 = none ↔
      (isZeroStats (drain freshReporter.stats).1 = true ∧
       freshReporter.sentInitial = true)) ∧
    (1 ≤ 5 ∧ idleReports freshReporter 5 = [zeroStats]) :=
  ⟨c6_quash_empty.1 freshReporter, by decide, c6_quash_empty.2 5 (by decide)⟩

theorem pick_targets_fallback (st : LbState) (hm : st.mode = .fallback)
    (ip port : Nat) (tok : String) (h : (pickOne st).1 = .picked ip port tok) :
    (ip, port) ∈ st.fallbackAddrs ∧ tok = "" := by
  obtain ⟨e, hmem, hdrop, hready, hip, hport, htok⟩ := pickOne_picked_mem st ip port tok h
  rw [effectiveServers, if_pos hm] at hmem
  obtain ⟨a, ha, hae⟩ := List.mem_map.mp hmem
  constructor
  · have hpair : (ip, port) = a := by
      rw [← hip, ← hport, ← hae]
    rw [hpair]
    exact ha
  · rw [← htok, ← hae]

theorem pick_targets_remote (st : LbState) (hm : st.mode = .remote)
    (ip port : Nat) (tok : String) (h : (pickOne st).1 = .picked ip port tok) :
    ∃ e ∈ st.serverList, e.drop = false ∧ e.ip = ip ∧ e.port = port ∧
      e.loadBalanceToken = tok := by
  obtain ⟨e, hmem, hdrop, _, hip, hport, htok⟩ := pickOne_picked_mem st ip port tok h
  rw [effectiveServers, if_neg (by rw [hm]; simp)] at hmem
  exact ⟨e, hmem, hdrop, hip, hport, htok⟩

/-- C7: a resolver update whose balancer address set is empty switches the
policy to fallback using the resolver backend addresses — any routed pick
then targets one of them — and no event ever makes the coordinator issue a
resolve-now request. -/
theorem c7_no_resolve_now :
    (∀ (st : LbState) (be : List (Nat × Nat)),
       (handleEvent st (.resolverUpdate be [])).1.mode = .fallback ∧
       (handleEvent st (.resolverUpdate be [])).1.fallbackAddrs = be ∧
       LbAction.resolveNow ∉ (handleEvent st (.resolverUpdate be [])).2) ∧
    (∀ (st : LbState) (ev : LbEvent), LbAction.resolveNow ∉ (handleEvent st ev).2) ∧
    (∀ (st : LbState) (be : List (Nat × Nat)) (ip port : Nat) (tok : String),
       (pickOne (handleEvent st (.resolverUpdate be [])).1).1 = .picked ip port tok →
       (ip, port) ∈ be) := by
  refine ⟨?_, ?_, ?_⟩
  · intro st be
    exact ⟨rfl, rfl, by simp [handleEvent]⟩
  · intro st ev
    cases ev with
    | resolverUpdate be ba =>
      cases ba with
      | nil => simp [handleEvent]
      | cons b0 bs =>
        cases hcb : st.curBalancer with
        | some c =>
          simp only [handleEvent, hcb]
          split
          · simp
          · simp
        | none => simp [handleEvent, hcb]
    | serverListMsg sl =>
      simp only [handleEvent]
      split
      · simp
      · simp
    | fallbackMsg => simp [handleEvent]
    | connectivityChange a b => simp [handleEvent]
  · intro st be ip port tok h
    have hm : (handleEvent st (.resolverUpdate be [])).1.mode = .fallback := rfl
    have hfb : (handleEvent st (.resolverUpdate be [])).1.fallbackAddrs = be := rfl
    have hmem := (pick_targets_fallback _ hm ip port tok h).1
    rw [hfb] at hmem
    exact hmem

/-- Witness for C7: a fallback pick after an empty-balancer resolver update
lands on the resolver backend (9, 99). -/
theorem c7_witness :
    (pickOne (handleEvent (dropScenario 0 0 true zeroStats)
        (.resolverUpdate [(9, 99)] [])).1).1 = .picked 9 99 "" ∧
    ((9 : Nat), (99 : Nat)) ∈ [((9 : Nat), (99 : Nat))] :=
  ⟨by decide, c7_no_resolve_now.2.2 (dropScenario 0 0 true zeroStats)
    [(9, 99)] 9 99 "" (by decide)⟩

/-- C8: while serving balancer-supplied backends, every routed pick returns
the address and token of a non-drop entry of the current server list and
the callback bundle attaches exactly that token as the reserved lb-token
request header; in fallback mode the attached token is empty. -/
theorem c8_token_on_outbound :
    (∀ (st : LbState) (ip port : Nat) (tok : String), st.mode = .remote →
      (pickOne st).1 = .picked ip port tok →
      ∃ e ∈ st.serverList, e.drop = false ∧ e.ip = ip ∧ e.port = port ∧
        e.loadBalanceToken = tok ∧
        outboundMetadata (pickOne st).1 = [(lbTokenHeaderName, e.loadBalanceToken)]) ∧
    (∀ (st : LbState) (ip port : Nat) (tok : String), st.mode = .fallback →
      (pickOne st).1 = .picked ip port tok →
      tok = "" ∧ outboundMetadata (pickOne st).1 = [(lbTokenHeaderName, "")]) := by
  constructor
  · intro st ip port tok hm h
    obtain ⟨e, hmem, hdrop, hip, hport, htok⟩ := pick_targets_remote st hm ip port tok h
    refine ⟨e, hmem, hdrop, hip, hport, htok, ?_⟩
    rw [h]
    simp [outboundMetadata, htok]
  · intro st ip port tok hm h
    have hfb := pick_targets_fallback st hm ip port tok h
    refine ⟨hfb.2, ?_⟩
    rw [h]
    simp [outboundMetadata, hfb.2]

/-- Witness for C8: in the remote drop scenario the first pick routes to B0
and the header carries its token. -/
theorem c8_witness :
    (dropScenario 0 0 true zeroStats).mode = .remote ∧
    (pickOne (dropScenario 0 0 true zeroStats)).1 = .picked 1 81 lbTok ∧
    ∃ e ∈ (dropScenario 0 0 true zeroStats).serverList,
      e.drop = false ∧ e.ip = 1 ∧ e.port = 81 ∧ e.loadBalanceToken = lbTok ∧
      outboundMetadata (pickOne (dropScenario 0 0 true zeroStats)).1 =
        [(lbTokenHeaderName, e.loadBalanceToken)] :=
  ⟨by decide, by decide, c8_token_on_outbound.1 (dropScenario 0 0 true zeroStats)
    1 81 lbTok (by decide) (by decide)⟩

theorem mode_fallback_preserved (st : LbState) (ev : LbEvent)
    (hm : st.mode = .fallback) (hev : isServerListEvent ev = false) :
    (handleEvent st ev).1.mode = .fallback := by
  cases ev with
  | resolverUpdate be ba =>
    cases ba with
    | nil => simp [handleEvent]
    | cons b0 bs =>
      cases hcb : st.curBalancer with
      | some c =>
        simp only [handleEvent, hcb]
        split
        · exact hm
        · exact hm
      | none => simpa [handleEvent, hcb] using hm
  | serverListMsg sl => simp [isServerListEvent] at hev
  | fallbackMsg => simp [handleEvent]
  | connectivityChange a b => simpa [handleEvent] using hm

theorem applyEvents_fallback (st : LbState) (evs : List LbEvent)
    (hm : st.mode = .fallback) (hnosl : ∀ e ∈ evs, isServerListEvent e = false) :
    (applyEvents st evs).mode = .fallback := by
  induction evs generalizing st with
  | nil => exact hm
  | cons e tl ih =>
    simp only [applyEvents, List.foldl_cons]
    exact ih (handleEvent st e).1
      (mode_fallback_preserved st e hm (hnosl e (by simp)))
      (fun x hx => hnosl x (by simp [hx]))

/-- C5: after a FallbackResponse received while serving balancer-supplied
backends, the policy is in fallback mode and stays there across any events
other than a ServerList, every routed pick targeting the current resolver
fallback backends; the next ServerList returns the policy to remote mode
serving exactly that list. -/
theorem c5_fallback_until_serverlist (st : LbState) (evs : List LbEvent) (sl : List Server)
    (_hremote : st.mode = .remote) (hnosl : ∀ e ∈ evs, isServerListEvent e = false) :
    ((handleEvent st .fallbackMsg).1.mode = .fallback) ∧
    ((applyEvents (handleEvent st .fallbackMsg).1 evs).mode = .fallback ∧
     ∀ ip port tok,
       (pickOne (applyEvents (handleEvent st .fallbackMsg).1 evs)).1 = .picked ip port tok →
       (ip, port) ∈ (applyEvents (handleEvent st .fallbackMsg).1 evs).fallbackAddrs) ∧
    ((handleEvent (applyEvents (handleEvent st .fallbackMsg).1 evs)
        (.serverListMsg sl)).1.mode = .remote ∧
     (handleEvent (applyEvents (handleEvent st .fallbackMsg).1 evs)
        (.serverListMsg sl)).1.serverList = sl ∧
     ∀ ip port tok,
       (pickOne (handleEvent (applyEvents (handleEvent st .fallbackMsg).1 evs)
          (.serverListMsg sl)).1).1 = .picked ip port tok →
       ∃ e ∈ sl, e.drop = false ∧ e.ip = ip ∧ e.port = port ∧
         e.loadBalanceToken = tok) := by
  have hfb1 : (handleEvent st .fallbackMsg).1.mode = .fallback := rfl
  have hfb2 : (applyEvents (handleEvent st .fallbackMsg).1 evs).mode = .fallback :=
    applyEvents_fallback _ evs hfb1 hnosl
  have hm2 : (handleEvent (applyEvents (handleEvent st .fallbackMsg).1 evs)
      (.serverListMsg sl)).1.mode = .remote := by
    simp only [handleEvent]
    split
    · rfl
    · rfl
  have hsl2 : (handleEvent (applyEvents (handleEvent st .fallbackMsg).1 evs)
      (.serverListMsg sl)).1.serverList = sl := by
    simp only [handleEvent]
    split
    · rename_i hsame
      exact hsame.symm
    · rfl
  refine ⟨hfb1, ⟨hfb2, ?_⟩, hm2, hsl2, ?_⟩
  · intro ip port tok h
    exact (pick_targets_fallback _ hfb2 ip port tok h).1
  · intro ip port tok h
    obtain ⟨e, hmem, hrest⟩ := pick_targets_remote _ hm2 ip port tok h
    rw [hsl2] at hmem
    exact ⟨e, hmem, hrest⟩

/-- Witness for C5 at the remote drop scenario, no intervening events, and
the one-backend server list [B0]. -/
theorem c5_witness :
    (dropScenario 0 0 true zeroStats).mode = .remote ∧
    ((handleEvent (dropScenario 0 0 true zeroStats) .fallbackMsg).1.mode = .fallback ∧
     (handleEvent (applyEvents (handleEvent (dropScenario 0 0 true zeroStats)
        .fallbackMsg).1 []) (.serverListMsg [b0Server])).1.serverList = [b0Server]) := by
  have h := c5_fallback_until_serverlist (dropScenario 0 0 true zeroStats) [] [b0Server]
    (by decide) (by simp)
  exact ⟨by decide, h.1, h.2.2.2.1⟩

theorem pickOne_rr (st : LbState) (hm : st.mode = .remote)
    (hnd : ∀ e ∈ st.serverList, e.drop = false)
    (hrdy : ∀ e ∈ st.serverList, st.ready (e.ip, e.port) = true)
    (hne : st.serverList ≠ []) :
    pickOne st =
      (.picked (st.serverList.getD (st.rrIndex % st.serverList.length) defaultServer).ip
        (st.serverList.getD (st.rrIndex % st.serverList.length) defaultServer).port
        (st.serverList.getD (st.rrIndex % st.serverList.length)
          defaultServer).loadBalanceToken,
       { st with dropIndex := st.dropIndex + 1, rrIndex := st.rrIndex + 1 }) := by
  have hlen : st.serverList.length ≠ 0 := fun hh => hne (List.length_eq_zero.mp hh)
  have heff : effectiveServers st = st.serverList := by
    unfold effectiveServers
    rw [if_neg (by rw [hm]; simp)]
  have hf1 : st.serverList.filter (fun s => !s.drop) = st.serverList :=
    List.filter_eq_self.mpr fun e he => by simp [hnd e he]
  have hf2 : st.serverList.filter (fun s => st.ready (s.ip, s.port)) = st.serverList :=
    List.filter_eq_self.mpr fun e he => hrdy e he
  have hdropE : (st.serverList.getD (st.dropIndex % st.serverList.length)
      defaultServer).drop = false := by
    have hlt : st.dropIndex % st.serverList.length < st.serverList.length :=
      Nat.mod_lt _ (Nat.pos_of_ne_zero hlen)
    rw [List.getD_eq_getElem _ _ hlt]
    exact hnd _ (List.getElem_mem hlt)
  have hdropE2 : (st.serverList[st.dropIndex % st.serverList.length]?.getD
      defaultServer).drop = false := by
    rw [← List.getD_eq_getElem?_getD]
    exact hdropE
  simp only [pickOne, heff, hf1, hf2]
  rw [if_neg hlen, if_neg (by simp [hdropE2]), if_neg hlen]

theorem pickSeq_rr_formula (st : LbState) (hm : st.mode = .remote)
    (hnd : ∀ e ∈ st.serverList, e.drop = false)
    (hrdy : ∀ e ∈ st.serverList, st.ready (e.ip, e.port) = true)
    (hne : st.serverList ≠ []) (m : Nat) :
    pickSeq st m = (List.range m).map fun t =>
      PickResult.picked
        (st.serverList.getD ((st.rrIndex + t) % st.serverList.length) defaultServer).ip
        (st.serverList.getD ((st.rrIndex + t) % st.serverList.length) defaultServer).port
        (st.serverList.getD ((st.rrIndex + t) % st.serverList.length)
          defaultServer).loadBalanceToken := by
  induction m generalizing st with
  | zero => rfl
  | succ m ih =>
    simp only [pickSeq, pickOne_rr st hm hnd hrdy hne]
    have htail := ih { st with dropIndex := st.dropIndex + 1, rrIndex := st.rrIndex + 1 }
      hm hnd hrdy hne
    dsimp only at htail
    rw [htail, List.range_succ_eq_map, List.map_cons, List.map_map]
    have harg : ∀ t : Nat, st.rrIndex + 1 + t = st.rrIndex + (t + 1) := fun t => by omega
    simp only [Function.comp, Nat.succ_eq_add_one, harg, Nat.add_zero]
    congr 1

theorem countP_mod_shift (n : Nat) (g : Nat → Bool) (r : Nat) :
    List.countP (fun t => g ((r + t) % n)) (List.range n) =
      List.countP (fun t => g (t % n)) (List.range n) := by
  induction r with
  | zero => simp
  | succ r ih =>
    rw [← ih]
    have e1 : List.countP (fun t => g ((r + t) % n)) (List.range (n + 1)) =
        List.countP (fun t => g ((r + t) % n)) (List.range n) +
          (if g ((r + 0) % n) then 1 else 0) := by
      rw [List.range_succ, List.countP_append]
      have hmod : (r + n) % n = (r + 0) % n := by
        rw [Nat.add_mod_right, Nat.add_zero]
      simp [List.countP_cons, hmod]
    have e2 : List.countP (fun t => g ((r + t) % n)) (List.range (n + 1)) =
        List.countP (fun t => g ((r + (t + 1)) % n)) (List.range n) +
          (if g ((r + 0) % n) then 1 else 0) := by
      rw [List.range_succ_eq_map, List.countP_cons, List.countP_map]
      have hcomp : List.countP ((fun t => g ((r + t) % n)) ∘ Nat.succ) (List.range n) =
          List.countP (fun t => g ((r + (t + 1)) % n)) (List.range n) := by
        apply List.countP_congr
        intro t _
        simp [Function.comp_apply, Nat.succ_eq_add_one]
      rw [hcomp]
    have e4 : List.countP (fun t => g ((r + 1 + t) % n)) (List.range n) =
        List.countP (fun t => g ((r + (t + 1)) % n)) (List.range n) := by
      apply List.countP_congr
      intro t _
      have harg : r + 1 + t = r + (t + 1) := by omega
      rw [harg]
    rw [e4]
    omega

theorem countP_mod_cycles (n : Nat) (g : Nat → Bool) (r k : Nat) :
    List.countP (fun t => g ((r + t) % n)) (List.range (k * n)) =
      k * List.countP (fun t => g (t % n)) (List.range n) := by
  induction k with
  | zero => simp
  | succ k ih =>
    have hkn : (k + 1) * n = k * n + n := by ring
    rw [hkn, List.range_add, List.countP_append, ih, List.countP_map]
    have hshift : List.countP ((fun t => g ((r + t) % n)) ∘ fun x => k * n + x)
        (List.range n) =
        List.countP (fun t => g ((r + k * n + t) % n)) (List.range n) := by
      apply List.countP_congr
      intro t _
      simp only [Function.comp_apply]
      have harg : r + (k * n + t) = r + k * n + t := by omega
      rw [harg]
    rw [hshift, countP_mod_shift]
    ring

theorem countP_getD_range (sl : List Server) (p : Server → Bool) :
    List.countP (fun t => p (sl.getD t defaultServer)) (List.range sl.length) =
      sl.countP p := by
  induction sl with
  | nil => simp
  | cons e tl ih =>
    rw [List.length_cons, List.range_succ_eq_map, List.countP_cons, List.countP_map,
      List.countP_cons]
    have hcomp : List.countP ((fun t => p ((e :: tl).getD t defaultServer)) ∘ Nat.succ)
        (List.range tl.length) =
        List.countP (fun t => p (tl.getD t defaultServer)) (List.range tl.length) := by
      apply List.countP_congr
      intro t _
      simp [Function.comp_apply, Nat.succ_eq_add_one, List.getD_cons_succ]
    rw [hcomp, ih]
    simp [List.getD_cons_zero]

set_option maxRecDepth 100000 in
/-- C3: with the round-robin child, a server list with no drops, and every
addressed backend ready, any k·n consecutive picks (from any reachable
point) route each address exactly k times its multiplicity in the
server list, so duplicates act as weights; concretely the five-entry list
[B0, B0, B1, B0, B1] yields, over 1000 picks, two consecutive cycles of the
00101 pattern as a contiguous subsequence. -/
theorem c3_weighted_round_robin :
    (∀ (st : LbState) (k a b : Nat), st.mode = .remote →
      (∀ e ∈ st.serverList, e.drop = false) →
      (∀ e ∈ st.serverList, st.ready (e.ip, e.port) = true) →
      st.serverList ≠ [] →
      (pickSeq st (k * st.serverList.length)).countP (picksAddr a b) =
        k * st.serverList.countP (fun e => e.ip == a && e.port == b)) ∧
    (∃ pre post, pickSeq weightedScenario 1000 =
      pre ++ (weightedPattern ++ weightedPattern) ++ post) := by
  constructor
  · intro st k a b hm hnd hrdy hne
    rw [pickSeq_rr_formula st hm hnd hrdy hne, List.countP_map]
    have hcast : List.countP (picksAddr a b ∘ fun t =>
        PickResult.picked
          (st.serverList.getD ((st.rrIndex + t) % st.serverList.length) defaultServer).ip
          (st.serverList.getD ((st.rrIndex + t) % st.serverList.length) defaultServer).port
          (st.serverList.getD ((st.rrIndex + t) % st.serverList.length)
            defaultServer).loadBalanceToken)
        (List.range (k * st.serverList.length)) =
        List.countP (fun t => (fun pos =>
          (st.serverList.getD pos defaultServer).ip == a &&
          (st.serverList.getD pos defaultServer).port == b)
          ((st.rrIndex + t) % st.serverList.length))
        (List.range (k * st.serverList.length)) := rfl
    have hmain := countP_mod_cycles st.serverList.length
      (fun pos => (st.serverList.getD pos defaultServer).ip == a &&
        (st.serverList.getD pos defaultServer).port == b) st.rrIndex k
    rw [hcast, hmain]
    congr 1
    have hq : List.countP (fun t => (fun pos =>
        (st.serverList.getD pos defaultServer).ip == a &&
        (st.serverList.getD pos defaultServer).port == b) (t % st.serverList.length))
        (List.range st.serverList.length) =
        List.countP (fun t => (fun e => e.ip == a && e.port == b)
          (st.serverList.getD t defaultServer))
        (List.range st.serverList.length) := by
      apply List.countP_congr
      intro t ht
      rw [List.mem_range] at ht
      rw [Nat.mod_eq_of_lt ht]
    rw [hq, countP_getD_range st.serverList (fun e => e.ip == a && e.port == b)]
  · refine ⟨[], (pickSeq weightedScenario 1000).drop 10, ?_⟩
    conv_lhs => rw [← List.take_append_drop 10 (pickSeq weightedScenario 1000)]
    rw [List.nil_append]
    congr 1

/-- Witness for C3 at the weighted scenario, two full cycles, address B0. -/
theorem c3_witness :
    (weightedScenario.mode = .remote ∧
     (∀ e ∈ weightedScenario.serverList, e.drop = false) ∧
     (∀ e ∈ weightedScenario.serverList,
       weightedScenario.ready (e.ip, e.port) = true) ∧
     weightedScenario.serverList ≠ []) ∧
    (pickSeq weightedScenario (2 * weightedScenario.serverList.length)).countP
        (picksAddr 1 81) =
      2 * weightedScenario.serverList.countP (fun e => e.ip == 1 && e.port == 81) :=
  ⟨⟨rfl, by decide, fun e _ => rfl, by decide⟩,
   c3_weighted_round_robin.1 weightedScenario 2 1 81 rfl (by decide)
     (fun e _ => rfl) (by decide)⟩

end Grpclb
